import Mathlib

/-!
Verification of the pathfinder repository: a shallow embedding of the
cell/grid data model (src/types.ts, src/cell.ts, src/grid.ts), the seeded
random number generator (src/seededRandom.ts), the world generator
(src/worldGenerator.ts), the A* pathfinder (src/pathfinder.ts) and the
movement-queue operations of the application shell (src/app.ts), together
with theorems settling the specification claims.

Modelling conventions, used uniformly below:
* A TypeScript `Cell` object is identified with its `CellType` state; the
  grid is a total function from positions to cell states together with the
  world dimensions.  `cell.setType t` on the cell returned by a
  bounds-checked `getCell` becomes the bounds-guarded functional update
  `Grid.setCell`; `cell.reset()` is `setCell _ _ .empty`.
* JavaScript numbers holding integer quantities (coordinates, RNG state)
  are modelled as `Int`/`Nat`; they stay far below 2^53 in this program, so
  the float arithmetic on them is exact.  Fractional arithmetic
  (`random()` outputs, probability thresholds such as `0.7`) is modelled
  in `ℚ`; the JS doubles differ from these rationals only by rounding of
  the literals, which none of the verified properties depend on.
* The 32-bit coercions performed by JS bitwise operators and `Math.imul`
  are modelled by reduction modulo 2^32 on `Nat`; signed and unsigned
  views share this bit pattern, and all subsequent uses here are
  pattern-level (xor, or, shift, multiply-mod, add-mod, divide by 2^32).
* `Map<string, boolean>` keyed by the string "x,y" is modelled as a list
  of positions: the key encoding is injective, and the map is only ever
  tested for key presence.
* Unbounded loops of the source (the tunnel carver's while loop, whose
  termination is only probabilistic, and the recursive flood fill) take an
  explicit fuel argument; theorems are proved for every fuel where
  possible and the fuel the source's behaviour corresponds to is noted.
-/

namespace Pathfinder

/-- Cell states, from the `CellType` enum in src/types.ts. -/
inductive CellType where
  | empty
  | wall
  | player
  | path
  | playerTrail
  | visited
  | target
  | queuedTarget
deriving DecidableEq

/-- An (x, y) world coordinate pair, from `Position` in src/types.ts. -/
structure Position where
  x : Int
  y : Int
deriving DecidableEq

/-- The world grid: fixed dimensions plus the state of every cell
(src/grid.ts, world-coordinate version).  Out-of-bounds points of the
`cell` function are never read or written by the embedded operations. -/
structure Grid where
  worldWidth : Nat
  worldHeight : Nat
  cell : Position → CellType

/-- `Grid.isWithinWorldBounds` from src/grid.ts. -/
def Grid.isWithinWorldBounds (g : Grid) (p : Position) : Prop :=
  0 ≤ p.x ∧ p.x < (g.worldWidth : Int) ∧ 0 ≤ p.y ∧ p.y < (g.worldHeight : Int)

instance (g : Grid) (p : Position) : Decidable (g.isWithinWorldBounds p) := by
  unfold Grid.isWithinWorldBounds
  exact inferInstance

/-- `Grid.getCell` from src/grid.ts: the state of the cell at a position,
`none` when out of bounds. -/
def Grid.getCell (g : Grid) (p : Position) : Option CellType :=
  if g.isWithinWorldBounds p then some (g.cell p) else none

/-- Setting the state of the cell at a position, provided it is in bounds:
the embedding of `const cell = grid.getCell(p); if (cell) cell.setType(t)`
(src/cell.ts `setType` via src/grid.ts `getCell`). -/
def Grid.setCell (g : Grid) (p : Position) (t : CellType) : Grid :=
  if g.isWithinWorldBounds p then
    { g with cell := fun q => if q = p then t else g.cell q }
  else g

/-- `Cell.isWalkable` from src/cell.ts: every state except `Wall`. -/
def CellType.isWalkable (t : CellType) : Prop := t ≠ CellType.wall

instance (t : CellType) : Decidable t.isWalkable := by
  unfold CellType.isWalkable
  exact inferInstance

/-- `Grid.getNeighbors` from src/grid.ts: the four axis-aligned neighbour
positions, in the source's up/right/down/left order, filtered to in-bounds
walkable cells (the source returns the cells; we return their positions). -/
def Grid.getNeighbors (g : Grid) (p : Position) : List Position :=
  let directions : List Position := [⟨0, -1⟩, ⟨1, 0⟩, ⟨0, 1⟩, ⟨-1, 0⟩]
  (directions.map fun d => Position.mk (p.x + d.x) (p.y + d.y)).filter
    fun q => decide (g.isWithinWorldBounds q ∧ (g.cell q).isWalkable)

/-- `Grid.resetPath` from src/grid.ts: every in-bounds cell whose state is
`Path`, `Visited` or `Target` is reset to `Empty`; each loop iteration
reads and writes only its own cell, so the loop is this pointwise map. -/
def Grid.resetPath (g : Grid) : Grid :=
  { g with cell := fun p =>
      if g.isWithinWorldBounds p ∧
          (g.cell p = CellType.path ∨ g.cell p = CellType.visited ∨
            g.cell p = CellType.target) then
        CellType.empty
      else g.cell p }

/-! ### Seeded random number generator (src/seededRandom.ts) -/

/-- The state of a `SeededRandom` instance: the construction seed and the
evolving `currentSeed`.  `create` is the constructor called with a numeric
seed. -/
structure SeededRandom where
  seed : Int
  currentSeed : Int
deriving DecidableEq

/-- The `SeededRandom` constructor applied to a numeric seed. -/
def SeededRandom.create (seed : Int) : SeededRandom :=
  { seed := seed, currentSeed := seed }

/-- `SeededRandom.reset`: restore `currentSeed` to the construction seed. -/
def SeededRandom.reset (r : SeededRandom) : SeededRandom :=
  { r with currentSeed := r.seed }

/-- The ToUint32 coercion of JS bitwise operators: the 32-bit bit pattern
of an integer, as a natural number. -/
def toUint32 (n : Int) : Nat :=
  (n % (4294967296 : Int)).toNat

/-- One step of the Mulberry32 generator (`SeededRandom.random`), returning
the raw 32-bit output (the source divides it by 2^32) and the updated
state.  Bitwise xors, ors, shifts, `Math.imul` and the one wrapping
addition all act on 32-bit patterns, modelled mod 2^32. -/
def SeededRandom.randomBits (r : SeededRandom) : Nat × SeededRandom :=
  let c : Int := r.currentSeed + 0x6D2B79F5
  let t0 : Nat := toUint32 c
  let t1 : Nat := ((t0 ^^^ (t0 >>> 15)) * (t0 ||| 1)) % 4294967296
  let t2 : Nat := t1 ^^^ ((t1 + ((t1 ^^^ (t1 >>> 7)) * (t1 ||| 61)) % 4294967296) % 4294967296)
  (t2 ^^^ (t2 >>> 14), { r with currentSeed := c })

/-- `SeededRandom.random`: a rational in [0, 1), the Mulberry32 output
divided by 2^32 (this division is exact in doubles). -/
def SeededRandom.random (r : SeededRandom) : ℚ × SeededRandom :=
  let (k, r') := r.randomBits
  ((k : ℚ) / 4294967296, r')

/-- `SeededRandom.randomInt`: integer between `min` and `max` inclusive,
by scaling `random()`.  On `Int` inputs the source's `Math.ceil(min)` and
`Math.floor(max)` are identities.  Note the source has no range check:
`min > max` silently produces a value. -/
def SeededRandom.randomInt (r : SeededRandom) (min max : Int) : Int × SeededRandom :=
  let (q, r') := r.random
  (⌊q * ((max : ℚ) - (min : ℚ) + 1)⌋ + min, r')

/-- `SeededRandom.randomBoolean`: true with the given probability. -/
def SeededRandom.randomBoolean (r : SeededRandom) (p : ℚ) : Bool × SeededRandom :=
  let (q, r') := r.random
  (decide (q < p), r')

/-- The state after `n` calls of `random()`. -/
def SeededRandom.advance (r : SeededRandom) : Nat → SeededRandom
  | 0 => r
  | n + 1 => (r.random.2).advance n

/-- The sequence of the first `n` outputs of `random()`. -/
def SeededRandom.randoms (r : SeededRandom) : Nat → List ℚ
  | 0 => []
  | n + 1 => r.random.1 :: (r.random.2).randoms n

/-! ### A* pathfinder (src/pathfinder.ts) -/

/-- Search node (`CellNode` in src/types.ts): position, f = g + h, g, h and
the predecessor link.  The source mutates node objects, but a node is only
ever mutated while it is on the open list, and only closed (immutable)
nodes are referenced as parents, so persistent values are observationally
equivalent. -/
inductive CellNode where
  | mk (position : Position) (f : Nat) (g : Nat) (h : Nat) (parent : Option CellNode)

def CellNode.position : CellNode → Position
  | .mk p _ _ _ _ => p

def CellNode.f : CellNode → Nat
  | .mk _ f _ _ _ => f

def CellNode.g : CellNode → Nat
  | .mk _ _ g _ _ => g

def CellNode.h : CellNode → Nat
  | .mk _ _ _ h _ => h

def CellNode.parent : CellNode → Option CellNode
  | .mk _ _ _ _ par => par

/-- `PathFinder.heuristic`: Manhattan distance.  The costs are naturals
(unit steps), on which double arithmetic is exact. -/
def heuristic (a b : Position) : Nat :=
  (a.x - b.x).natAbs + (a.y - b.y).natAbs

/-- `PathFinder.reconstructPath`: follow parent links back to the start,
building the path front-to-back (the source unshifts). -/
def reconstructPath : CellNode → List Position
  | .mk p _ _ _ none => [p]
  | .mk p _ _ _ (some par) => reconstructPath par ++ [p]

/-- The index scan at the top of the A* loop (src/pathfinder.ts lines
28-33): the first index of a node with minimal `f` in the open list
(strict comparison keeps the earliest among ties). -/
def findMinIndex (l : List CellNode) : Nat :=
  (List.range l.length).foldl
    (fun ci i =>
      match l[i]?, l[ci]? with
      | some ni, some nc => if ni.f < nc.f then i else ci
      | _, _ => ci) 0

/-- The in-place update of an already-open node (the source assigns
`openNode.f/g/parent`, keeping `h` and the list slot): replace the first
node at the given position. -/
def updateFirst (l : List CellNode) (q : Position) (fScore gScore : Nat) (par : CellNode) :
    List CellNode :=
  match l with
  | [] => []
  | n :: rest =>
    if n.position = q then CellNode.mk q fScore gScore n.h (some par) :: rest
    else n :: updateFirst rest q fScore gScore par

/-- The body of the neighbour loop (src/pathfinder.ts lines 61-101), for
one neighbour `q`: skip closed neighbours; skip open neighbours whose
recorded g is at least as good; otherwise update the open node in place
or push a new node. -/
def pnStep (cur : CellNode) (endP : Position) (closed : List Position)
    (ol : List CellNode) (q : Position) : List CellNode :=
  if q ∈ closed then ol
  else
    let gScore := cur.g + 1
    let hScore := heuristic q endP
    let fScore := gScore + hScore
    match ol.find? fun n => decide (n.position = q) with
    | some openNode =>
      if openNode.g ≤ gScore then ol else updateFirst ol q fScore gScore cur
    | none => ol ++ [CellNode.mk q fScore gScore hScore (some cur)]

/-- The neighbour loop of one A* iteration: fold `pnStep` over the
neighbour list. -/
def processNeighbors (cur : CellNode) (endP : Position) (closed : List Position)
    (neighbors : List Position) (openList : List CellNode) : List CellNode :=
  neighbors.foldl (pnStep cur endP closed) openList

/-- The visualization side effect of finalizing a node (src/pathfinder.ts
lines 47-56): tag the cell `Visited` unless the position is the start or
the end, or the cell is currently tagged `Player` or `Target`. -/
def markVisited (g : Grid) (startP endP : Position) (p : Position) : Grid :=
  if (p.x = startP.x ∧ p.y = startP.y) ∨ (p.x = endP.x ∧ p.y = endP.y) then g
  else
    match g.getCell p with
    | some t =>
      if t ≠ CellType.player ∧ t ≠ CellType.target then g.setCell p CellType.visited else g
    | none => g

/-- The A* main loop (src/pathfinder.ts lines 26-102), with explicit fuel.
The source's while loop terminates because every iteration moves one fresh
position to the closed list, so any fuel of at least
`worldWidth * worldHeight + 2` reproduces it exactly; fuel exhaustion
returns the no-path result.  Returns the path (or `none`) and the grid
with its `Visited` annotations. -/
def aStarLoop (startP endP : Position) :
    Nat → List CellNode → List Position → Grid → Option (List Position) × Grid
  | 0, _, _, grid => (none, grid)
  | fuel + 1, openList, closed, grid =>
    if openList.isEmpty then (none, grid)
    else
      match openList[findMinIndex openList]? with
      | none => (none, grid)
      | some currentNode =>
        if currentNode.position.x = endP.x ∧ currentNode.position.y = endP.y then
          (some (reconstructPath currentNode), grid)
        else
          let openList' := openList.eraseIdx (findMinIndex openList)
          let closed' := closed ++ [currentNode.position]
          let grid' := markVisited grid startP endP currentNode.position
          let neighbors := grid'.getNeighbors currentNode.position
          aStarLoop startP endP fuel
            (processNeighbors currentNode endP closed' neighbors openList') closed' grid'

/-- `PathFinder.aStar`: run the loop from the start node (whose stored `f`
is 0, as in the source). -/
def aStar (grid : Grid) (startP endP : Position) (fuel : Nat) : Option (List Position) × Grid :=
  aStarLoop startP endP fuel [CellNode.mk startP 0 0 (heuristic startP endP) none] [] grid

/-- `PathFinder.findPath` delegates to `aStar`. -/
def findPath (grid : Grid) (startP endP : Position) (fuel : Nat) :
    Option (List Position) × Grid :=
  aStar grid startP endP fuel

/-! ### World generator (src/worldGenerator.ts) -/

/-- The iteration space of a `for (let v = a; v < b; v++)` loop. -/
def intRange (a b : Int) : List Int :=
  (List.range (b - a).toNat).map fun i => a + (i : Int)

/-- `Math.ceil(Math.sqrt(n))` on a natural number (the double square root
is correctly rounded at these magnitudes, so this is exact). -/
def ceilSqrt (n : Nat) : Nat :=
  if Nat.sqrt n * Nat.sqrt n = n then Nat.sqrt n else Nat.sqrt n + 1

/-- `WorldGenerator.isWithinBounds`, identical to the grid's world-bounds
check (written with the source's argument order). -/
def isWithinBounds (g : Grid) (x y : Int) : Prop :=
  0 ≤ x ∧ 0 ≤ y ∧ x < (g.worldWidth : Int) ∧ y < (g.worldHeight : Int)

instance (g : Grid) (x y : Int) : Decidable (isWithinBounds g x y) := by
  unfold isWithinBounds
  exact inferInstance

/-- `WorldGenerator.fillWithWalls`: every in-bounds cell becomes `Wall`
(each loop iteration reads and writes only its own cell, so the loop is
this pointwise map). -/
def fillWithWalls (g : Grid) : Grid :=
  { g with cell := fun p => if g.isWithinWorldBounds p then CellType.wall else g.cell p }

/-- `WorldGenerator.countAdjacentWalls`: walls in the Moore neighbourhood,
out-of-bounds counting as wall. -/
def countAdjacentWalls (g : Grid) (x y : Int) : Nat :=
  let offsets : List (Int × Int) :=
    [(-1, -1), (0, -1), (1, -1), (-1, 0), (1, 0), (-1, 1), (0, 1), (1, 1)]
  offsets.foldl
    (fun count d =>
      let nx := x + d.1
      let ny := y + d.2
      if isWithinBounds g nx ny then
        if g.cell ⟨nx, ny⟩ = CellType.wall then count + 1 else count
      else count + 1)
    0

/-- `WorldGenerator.smoothCave`: three cellular-automaton rounds.  Each
round first computes `newState` for every region cell from the unmodified
grid (drawing randomness for border cells in row-major order, as the
source does), then writes the grid back from `newState`. -/
def smoothCave (g0 : Grid) (r0 : SeededRandom) (startX startY endX endY : Int) :
    Grid × SeededRandom :=
  (List.range 3).foldl
    (fun (acc : Grid × SeededRandom) _ =>
      let g := acc.1
      let stateAfter :=
        (intRange startY endY).foldl
          (fun (acc2 : (Position → Bool) × SeededRandom) y =>
            (intRange startX endX).foldl
              (fun (acc2 : (Position → Bool) × SeededRandom) x =>
                let wallCount := countAdjacentWalls g x y
                if isWithinBounds g x y then
                  if x = startX ∨ y = startY ∨ x = endX - 1 ∨ y = endY - 1 then
                    let (q, r) := acc2.2.random
                    (fun p => if p = Position.mk x y then decide (q < 1 / 2) else acc2.1 p, r)
                  else if g.cell ⟨x, y⟩ = CellType.wall then
                    (fun p => if p = Position.mk x y then decide (5 ≤ wallCount) else acc2.1 p,
                      acc2.2)
                  else
                    (fun p => if p = Position.mk x y then decide (6 ≤ wallCount) else acc2.1 p,
                      acc2.2)
                else acc2)
              acc2)
          (fun _ => false, acc.2)
      let newState := stateAfter.1
      let g' :=
        (intRange startY endY).foldl
          (fun gg y =>
            (intRange startX endX).foldl
              (fun gg x =>
                if newState ⟨x, y⟩ then gg.setCell ⟨x, y⟩ CellType.wall
                else gg.setCell ⟨x, y⟩ CellType.empty)
              gg)
          g
      (g', stateAfter.2))
    (g0, r0)

/-- `WorldGenerator.generateCave`: probabilistic initialization biased
toward the centre, three smoothing rounds, then collection of the empty
positions of the region. -/
def generateCave (g0 : Grid) (r0 : SeededRandom) (startX startY width height : Int) :
    List Position × Grid × SeededRandom :=
  let endX : Int := min (startX + width) ((g0.worldWidth : Int) - 1)
  let endY : Int := min (startY + height) ((g0.worldHeight : Int) - 1)
  let init :=
    (intRange startY endY).foldl
      (fun (acc : Grid × SeededRandom) y =>
        (intRange startX endX).foldl
          (fun (acc : Grid × SeededRandom) x =>
            if acc.1.isWithinWorldBounds ⟨x, y⟩ then
              let distFromCenter : ℚ :=
                |(x : ℚ) - ((startX : ℚ) + (width : ℚ) / 2)| / ((width : ℚ) / 2) +
                  |(y : ℚ) - ((startY : ℚ) + (height : ℚ) / 2)| / ((height : ℚ) / 2)
              let emptyProb : ℚ := 9 / 10 - 2 / 10 * distFromCenter
              let (q, r) := acc.2.random
              if q < emptyProb then (acc.1.setCell ⟨x, y⟩ CellType.empty, r)
              else (acc.1.setCell ⟨x, y⟩ CellType.wall, r)
            else acc)
          acc)
      (g0, r0)
  let smoothed := smoothCave init.1 init.2 startX startY endX endY
  let g2 := smoothed.1
  let positions :=
    (intRange startY endY).foldl
      (fun (ps : List Position) y =>
        (intRange startX endX).foldl
          (fun ps x =>
            if g2.isWithinWorldBounds ⟨x, y⟩ ∧ g2.cell ⟨x, y⟩ = CellType.empty then
              ps ++ [Position.mk x y]
            else ps)
          ps)
      []
  (positions, g2, smoothed.2)

/-- `WorldGenerator.generateCaves`: place one cave per division of a
near-square partition of the world, keeping the membership lists of the
caves that fit in bounds and came out non-empty. -/
def generateCaves (g0 : Grid) (r0 : SeededRandom) :
    List (List Position) × Grid × SeededRandom :=
  let w := g0.worldWidth
  let h := g0.worldHeight
  let numCaves := max 4 ((w * h) / 150)
  let gridDivisions := ceilSqrt numCaves
  let divWidth := w / gridDivisions
  let divHeight := h / gridDivisions
  (List.range numCaves).foldl
    (fun (acc : List (List Position) × Grid × SeededRandom) i =>
      let caveRegions := acc.1
      let g := acc.2.1
      let r := acc.2.2
      let divX := i % gridDivisions
      let divY := i / gridDivisions
      let caveWidth : Int := ⌊(divWidth : ℚ) * (7 / 10)⌋
      let caveHeight : Int := ⌊(divHeight : ℚ) * (7 / 10)⌋
      let (q1, r1) := r.random
      let caveX : Int :=
        ((divX * divWidth : Nat) : Int) + ⌊q1 * ((divWidth : ℚ) - (caveWidth : ℚ)) * (8 / 10)⌋
      let (q2, r2) := r1.random
      let caveY : Int :=
        ((divY * divHeight : Nat) : Int) + ⌊q2 * ((divHeight : ℚ) - (caveHeight : ℚ)) * (8 / 10)⌋
      if 0 < caveX ∧ 0 < caveY ∧ caveX + caveWidth < (w : Int) ∧ caveY + caveHeight < (h : Int) then
        let cp := generateCave g r2 caveX caveY caveWidth caveHeight
        if 0 < cp.1.length then (caveRegions ++ [cp.1], cp.2.1, cp.2.2)
        else (caveRegions, cp.2.1, cp.2.2)
      else (caveRegions, g, r2))
    ([], g0, r0)

/-- The body of `WorldGenerator.createTunnel`'s while loop, with fuel.
The source loop terminates only with probability 1 (when the greedy move
is randomly refused while already aligned on one axis, the iteration makes
no move), so the embedding runs it for a given number of iterations;
reaching the target stops early, as in the source. -/
def createTunnelLoop (endP : Position) :
    Nat → Int → Int → Grid → SeededRandom → Grid × SeededRandom
  | 0, _, _, g, r => (g, r)
  | fuel + 1, cx, cy, g, r =>
    if cx = endP.x ∧ cy = endP.y then (g, r)
    else
      let distIfMoveX := (endP.x - (cx + (endP.x - cx).sign)).natAbs + (endP.y - cy).natAbs
      let distIfMoveY := (endP.x - cx).natAbs + (endP.y - (cy + (endP.y - cy).sign)).natAbs
      let (q, r1) := r.random
      let moveX : Bool :=
        if q < 8 / 10 then decide (distIfMoveX ≤ distIfMoveY)
        else decide (distIfMoveY < distIfMoveX)
      let next : Int × Int :=
        if moveX = true ∧ cx ≠ endP.x then (cx + (endP.x - cx).sign, cy)
        else if cy ≠ endP.y then (cx, cy + (endP.y - cy).sign)
        else (cx, cy)
      let g1 := g.setCell ⟨next.1, next.2⟩ CellType.empty
      let (q2, r2) := r1.random
      if q2 < 7 / 10 then
        let (q3, r3) := r2.random
        let widthX : Int := if q3 < 1 / 2 then 1 else -1
        let (q4, r4) := r3.random
        let widthY : Int := if q4 < 1 / 2 then 1 else -1
        let (q5, r5) := r4.random
        if q5 < 1 / 2 then
          let g2 := g1.setCell ⟨next.1 + widthX, next.2⟩ CellType.empty
          let g3 := g2.setCell ⟨next.1, next.2 + widthY⟩ CellType.empty
          createTunnelLoop endP fuel next.1 next.2 g3 r5
        else
          let (q6, r6) := r5.random
          if q6 < 1 / 2 then
            createTunnelLoop endP fuel next.1 next.2
              (g1.setCell ⟨next.1 + widthX, next.2⟩ CellType.empty) r6
          else
            createTunnelLoop endP fuel next.1 next.2
              (g1.setCell ⟨next.1, next.2 + widthY⟩ CellType.empty) r6
      else createTunnelLoop endP fuel next.1 next.2 g1 r2

/-- `WorldGenerator.createTunnel`, starting the loop at the start point. -/
def createTunnel (g : Grid) (r : SeededRandom) (startP endP : Position) (tf : Nat) :
    Grid × SeededRandom :=
  createTunnelLoop endP tf startP.x startP.y g r

/-- The do-while of `WorldGenerator.connectCaves` drawing a cave index
different from `c1` (termination only probabilistic; fuel exhaustion
returns the last draw). -/
def drawIndexNotEqual (maxIdx c1 : Int) : Nat → SeededRandom → Int × SeededRandom
  | 0, r => r.randomInt 0 maxIdx
  | fuel + 1, r =>
    let (c2, r') := r.randomInt 0 maxIdx
    if c2 = c1 then drawIndexNotEqual maxIdx c1 fuel r' else (c2, r')

/-- `WorldGenerator.connectToStart`: find the cave point closest to the
origin (two scans, with Infinity modelled as `none`) and tunnel to it. -/
def connectToStart (g : Grid) (r : SeededRandom) (caves : List (List Position)) (tf : Nat) :
    Grid × SeededRandom :=
  match caves with
  | [] => (g, r)
  | c0 :: _ =>
    let startP : Position := ⟨0, 0⟩
    let firstScan :=
      caves.foldl
        (fun (acc : List Position × Option Nat) cave =>
          if cave.length = 0 then acc
          else
            cave.foldl
              (fun (acc : List Position × Option Nat) point =>
                let dist := (point.x - startP.x).natAbs + (point.y - startP.y).natAbs
                match acc.2 with
                | none => (cave, some dist)
                | some d => if dist < d then (cave, some dist) else acc)
              acc)
        (c0, none)
    let closestCave := firstScan.1
    let secondScan :=
      closestCave.foldl
        (fun (acc : Position × Option Nat) point =>
          let dist := (point.x - startP.x).natAbs + (point.y - startP.y).natAbs
          match acc.2 with
          | none => (point, some dist)
          | some d => if dist < d then (point, some dist) else acc)
        (closestCave.headD ⟨0, 0⟩, none)
    createTunnel g r startP secondScan.1 tf

/-- `WorldGenerator.connectCaves`: tunnel between consecutive caves, add
extra random-pair connections, then always connect the start. -/
def connectCaves (g0 : Grid) (r0 : SeededRandom) (caves : List (List Position)) (tf : Nat) :
    Grid × SeededRandom :=
  if caves.length ≤ 1 then (g0, r0)
  else
    let first :=
      (List.range (caves.length - 1)).foldl
        (fun (acc : Grid × SeededRandom) i =>
          let currentCave := caves.getD i []
          let nextCave := caves.getD (i + 1) []
          if 0 < currentCave.length ∧ 0 < nextCave.length then
            let (si, r1) := acc.2.randomInt 0 ((currentCave.length : Int) - 1)
            let (ei, r2) := r1.randomInt 0 ((nextCave.length : Int) - 1)
            createTunnel acc.1 r2 (currentCave.getD si.toNat ⟨0, 0⟩)
              (nextCave.getD ei.toNat ⟨0, 0⟩) tf
          else acc)
        (g0, r0)
    let extraConnections : Nat := (⌊(caves.length : ℚ) * (7 / 10)⌋).toNat
    let second :=
      (List.range extraConnections).foldl
        (fun (acc : Grid × SeededRandom) _ =>
          let (c1, r1) := acc.2.randomInt 0 ((caves.length : Int) - 1)
          let (c2, r2) := drawIndexNotEqual ((caves.length : Int) - 1) c1 tf r1
          let cave1 := caves.getD c1.toNat []
          let cave2 := caves.getD c2.toNat []
          if 0 < cave1.length ∧ 0 < cave2.length then
            let (i1, r3) := r2.randomInt 0 ((cave1.length : Int) - 1)
            let (i2, r4) := r3.randomInt 0 ((cave2.length : Int) - 1)
            createTunnel acc.1 r4 (cave1.getD i1.toNat ⟨0, 0⟩) (cave2.getD i2.toNat ⟨0, 0⟩) tf
          else acc)
        first
    connectToStart second.1 second.2 caves tf

/-- `WorldGenerator.addRandomEmptySpaces`: clear about 15% of the cell
count at random wall positions, sometimes clearing one diagonal
neighbour as well. -/
def addRandomEmptySpaces (g0 : Grid) (r0 : SeededRandom) : Grid × SeededRandom :=
  let w := g0.worldWidth
  let h := g0.worldHeight
  let numToAdd : Nat := (⌊((w : ℚ) * (h : ℚ)) * (15 / 100)⌋).toNat
  (List.range numToAdd).foldl
    (fun (acc : Grid × SeededRandom) _ =>
      let (xi, r1) := acc.2.randomInt 0 ((w : Int) - 1)
      let (yi, r2) := r1.randomInt 0 ((h : Int) - 1)
      match acc.1.getCell ⟨xi, yi⟩ with
      | some t =>
        if t = CellType.wall then
          let g1 := acc.1.setCell ⟨xi, yi⟩ CellType.empty
          let (b, r3) := r2.randomBoolean (3 / 10)
          if b = true then
            let (bx, r4) := r3.randomBoolean (1 / 2)
            let dx : Int := if bx = true then 1 else -1
            let (bY, r5) := r4.randomBoolean (1 / 2)
            let dy : Int := if bY = true then 1 else -1
            (g1.setCell ⟨xi + dx, yi + dy⟩ CellType.empty, r5)
          else (g1, r3)
        else (acc.1, r2)
      | none => (acc.1, r2))
    (g0, r0)

/-- `WorldGenerator.clearStartArea`: reset the 3×3 block at the origin. -/
def clearStartArea (g : Grid) : Grid :=
  (List.range 3).foldl
    (fun gg y =>
      (List.range 3).foldl (fun gg x => gg.setCell ⟨(x : Int), (y : Int)⟩ CellType.empty) gg)
    g

/-- `WorldGenerator.floodFill`: the recursive depth-first fill marking
every non-wall cell reachable from (x, y), recursing right, left, down,
up, with explicit fuel (a fuel of `worldWidth * worldHeight + 2`
completes the fill: every level of meaningful recursion marks a fresh
cell). -/
def floodFill (g : Grid) :
    Nat → Int → Int → (Position → Bool) → List Position → (Position → Bool) × List Position
  | 0, _, _, visited, cells => (visited, cells)
  | fuel + 1, x, y, visited, cells =>
    if ¬g.isWithinWorldBounds ⟨x, y⟩ ∨ visited ⟨x, y⟩ = true then (visited, cells)
    else if g.cell ⟨x, y⟩ = CellType.wall then (visited, cells)
    else
      let visited' : Position → Bool := fun p => if p = Position.mk x y then true else visited p
      let cells' := cells ++ [Position.mk x y]
      let s1 := floodFill g fuel (x + 1) y visited' cells'
      let s2 := floodFill g fuel (x - 1) y s1.1 s1.2
      let s3 := floodFill g fuel x (y + 1) s2.1 s2.2
      floodFill g fuel x (y - 1) s3.1 s3.2

/-- The straight-corridor carving loop inside
`WorldGenerator.improveConnectivity` (breaks at the world edge; each step
clears the cell and, with probability 0.4, one perpendicular
neighbour). -/
def carveLoop (dx dy : Int) : Nat → Int → Int → Grid → SeededRandom → Grid × SeededRandom
  | 0, _, _, g, r => (g, r)
  | j + 1, cx, cy, g, r =>
    let cx' := cx + dx
    let cy' := cy + dy
    if ¬isWithinBounds g cx' cy' then (g, r)
    else
      let g1 := g.setCell ⟨cx', cy'⟩ CellType.empty
      let (b, r1) := r.randomBoolean (4 / 10)
      if b = true then
        let offsetX := dy
        let offsetY := dx
        carveLoop dx dy j cx' cy' (g1.setCell ⟨cx' + offsetX, cy' + offsetY⟩ CellType.empty) r1
      else carveLoop dx dy j cx' cy' g1 r1

/-- `WorldGenerator.improveConnectivity`: carve up to
`min 10 (reachable / 20)` random corridors of random length 5-15 starting
at random already-reachable cells. -/
def improveConnectivity (g0 : Grid) (r0 : SeededRandom) (reachableCells : List Position) :
    Grid × SeededRandom :=
  let numPaths := min 10 (reachableCells.length / 20)
  (List.range numPaths).foldl
    (fun (acc : Grid × SeededRandom) _ =>
      let (si, r1) := acc.2.randomInt 0 ((reachableCells.length : Int) - 1)
      let startP := reachableCells.getD si.toNat ⟨0, 0⟩
      let directions : List Position := [⟨1, 0⟩, ⟨-1, 0⟩, ⟨0, 1⟩, ⟨0, -1⟩]
      let (di, r2) := r1.randomInt 0 ((directions.length : Int) - 1)
      let dir := directions.getD di.toNat ⟨0, 0⟩
      let (dist, r3) := r2.randomInt 5 15
      carveLoop dir.x dir.y dist.toNat startP.x startP.y acc.1 r3)
    (g0, r0)

/-- The final loop of `WorldGenerator.ensureConnectivity`: every in-bounds
cell that is still `Empty` but was never marked by the flood fill becomes
`Wall` (the loop reads and writes only the cell at hand, so it is this
pointwise map). -/
def fillUnreachable (g1 : Grid) (visited : Position → Bool) : Grid :=
  { g1 with cell := fun p =>
      if g1.isWithinWorldBounds p ∧ g1.cell p = CellType.empty ∧ visited p = false then
        CellType.wall
      else g1.cell p }

/-- `WorldGenerator.ensureConnectivity`: flood-fill from the origin,
optionally run the repair pass (never re-running the fill), then turn
every still-empty unvisited cell into a wall. -/
def ensureConnectivity (g : Grid) (r : SeededRandom) : Grid × SeededRandom :=
  let w := g.worldWidth
  let h := g.worldHeight
  let ff := floodFill g (w * h + 2) 0 0 (fun _ => false) []
  let visited := ff.1
  let reachableCells := ff.2
  let totalCells := w * h
  let reachablePercent : ℚ := ((reachableCells.length : ℚ) / (totalCells : ℚ)) * 100
  let improved :=
    if reachablePercent < 25 then improveConnectivity g r reachableCells else (g, r)
  (fillUnreachable improved.1 visited, improved.2)

/-- `WorldGenerator.generateWorld`: optionally reseed (`setSeed` builds a
fresh `SeededRandom` from the given numeric seed), then run the stages in
their fixed order.  `tf` is the fuel for the probabilistically-terminating
tunnel loops. -/
def generateWorld (rng : SeededRandom) (newSeed : Option Int) (g : Grid) (tf : Nat) :
    Grid × SeededRandom :=
  let r0 := match newSeed with
    | some s => SeededRandom.create s
    | none => rng
  let g1 := fillWithWalls g
  let cg := generateCaves g1 r0
  let ct := connectCaves cg.2.1 cg.2.2 cg.1 tf
  let ar := addRandomEmptySpaces ct.1 ct.2
  let g5 := clearStartArea ar.1
  ensureConnectivity g5 ar.2

/-! ### Movement queue operations (src/app.ts) -/

/-- The enqueue path of `handleGridClick` (src/app.ts lines 162-195): a
click on an in-bounds cell that is neither a wall nor the player pushes
the position and tags the cell `QueuedTarget`. -/
def handleGridClick (g : Grid) (movementQueue : List Position) (clickedPosition : Position) :
    Grid × List Position :=
  match g.getCell clickedPosition with
  | none => (g, movementQueue)
  | some t =>
    if t ≠ CellType.wall ∧ t ≠ CellType.player then
      (g.setCell clickedPosition CellType.queuedTarget, movementQueue ++ [clickedPosition])
    else (g, movementQueue)

/-- `removeTaskFromQueue` (src/app.ts lines 272-289): for an in-range
index, reset the removed position's cell if it is still tagged
`QueuedTarget` and splice the queue; otherwise do nothing. -/
def removeTaskFromQueue (g : Grid) (movementQueue : List Position) (index : Int) :
    Grid × List Position :=
  if 0 ≤ index ∧ index < (movementQueue.length : Int) then
    let removedPosition := movementQueue.getD index.toNat ⟨0, 0⟩
    let g' :=
      match g.getCell removedPosition with
      | some t =>
        if t = CellType.queuedTarget then g.setCell removedPosition CellType.empty else g
      | none => g
    (g', movementQueue.eraseIdx index.toNat)
  else (g, movementQueue)

/-! ### Specification-side predicates -/

/-- Two positions differ by exactly one axis-aligned unit step. -/
def Adj (a b : Position) : Prop :=
  (a.x - b.x).natAbs + (a.y - b.y).natAbs = 1

/-- One step of the 4-connected walkable graph of a grid: an adjacent
in-bounds non-wall destination (matching the neighbour filter of
`Grid.getNeighbors`). -/
def WalkStep (g : Grid) (a b : Position) : Prop :=
  Adj a b ∧ g.isWithinWorldBounds b ∧ g.cell b ≠ CellType.wall

/-- A walk of `n` steps in the walkable graph. -/
inductive WalkN (g : Grid) : Position → Position → Nat → Prop
  | refl (a : Position) : WalkN g a a 0
  | tail {a b c : Position} {n : Nat} : WalkN g a b n → WalkStep g b c → WalkN g a c (n + 1)

/-- One step along adjacent in-bounds `Empty` cells. -/
def EmptyStep (g : Grid) (a b : Position) : Prop :=
  Adj a b ∧ g.isWithinWorldBounds b ∧ g.cell b = CellType.empty

/-- Reachability from the origin via 4-connected `Empty` cells. -/
def EmptyReachable (g : Grid) (p : Position) : Prop :=
  Relation.ReflTransGen (EmptyStep g) ⟨0, 0⟩ p

/-- One step between adjacent positions both marked by the flood fill. -/
def VisStep (V : Position → Bool) (a b : Position) : Prop :=
  Adj a b ∧ V b = true

/-- Reachability from the origin through flood-fill-marked positions. -/
def VisReach (V : Position → Bool) (p : Position) : Prop :=
  Relation.ReflTransGen (VisStep V) ⟨0, 0⟩ p

/-- Two grids with the same dimensions. -/
def SameDims (g g' : Grid) : Prop :=
  g'.worldWidth = g.worldWidth ∧ g'.worldHeight = g.worldHeight

/-- `g'` differs from `g` only by cells rewritten to `Empty` or `Wall`. -/
def EWapprox (g g' : Grid) : Prop :=
  SameDims g g' ∧
    ∀ p, g'.cell p = g.cell p ∨ g'.cell p = CellType.empty ∨ g'.cell p = CellType.wall

/-- `g'` differs from `g` only by cells rewritten to `Empty`. -/
def Eapprox (g g' : Grid) : Prop :=
  SameDims g g' ∧ ∀ p, g'.cell p = g.cell p ∨ g'.cell p = CellType.empty

/-- Every in-bounds cell is `Empty` or `Wall` (the only states occurring
during world generation). -/
def OnlyEW (g : Grid) : Prop :=
  ∀ p, g.isWithinWorldBounds p →
    g.cell p = CellType.empty ∨ g.cell p = CellType.wall

/-- Soundness invariant of the flood fill: every marked position is an
in-bounds non-wall cell reachable from the origin through marked cells. -/
def FFInv (g : Grid) (V : Position → Bool) : Prop :=
  ∀ p, V p = true → g.isWithinWorldBounds p ∧ g.cell p ≠ CellType.wall ∧ VisReach V p

/-- Validity of a search node: its parent chain is a walk from the start
whose length is the recorded g value (parents were expanded through the
walkable graph of the initial grid `g0`). -/
def GoodNode (g0 : Grid) (s : Position) : CellNode → Prop
  | .mk p _ gg _ none => p = s ∧ gg = 0
  | .mk p _ gg _ (some par) => GoodNode g0 s par ∧ WalkStep g0 par.position p ∧ gg = par.g + 1

/-- The in-bounds positions of a grid, as a finite set. -/
def boundedPositions (g : Grid) : Finset Position :=
  ((Finset.Ico (0 : Int) (g.worldWidth : Int)) ×ˢ
      (Finset.Ico (0 : Int) (g.worldHeight : Int))).image
    fun xy => Position.mk xy.1 xy.2

/-- The open-list part of the A* loop invariant, relative to the initial
grid `g0`, start `s`, goal `t` and the current closed list. -/
structure OpenInv (g0 : Grid) (s t : Position) (closed : List Position)
    (openList : List CellNode) : Prop where
  good : ∀ n ∈ openList, GoodNode g0 s n
  pos : ∀ n ∈ openList, n.position = s ∨
    (g0.isWithinWorldBounds n.position ∧ g0.cell n.position ≠ CellType.wall)
  fchar : ∀ n ∈ openList, n.h = heuristic n.position t ∧
    (n.f = n.g + n.h ∨ (n.position = s ∧ n.g = 0 ∧ n.f = 0))
  nodup : (openList.map CellNode.position).Nodup
  disj : ∀ n ∈ openList, n.position ∉ closed

/-- The invariant package of the A* main loop, relative to the initial
grid `g0`, start `s` and goal `t`. -/
structure AInv (g0 : Grid) (s t : Position) (openList : List CellNode) (closed : List Position)
    (grid : Grid) : Prop where
  dims : SameDims g0 grid
  wallEq : ∀ p, grid.cell p = CellType.wall ↔ g0.cell p = CellType.wall
  frameVT : ∀ p, g0.cell p = CellType.player ∨ g0.cell p = CellType.target →
    grid.cell p = g0.cell p
  goodOpen : ∀ n ∈ openList, GoodNode g0 s n
  posOpen : ∀ n ∈ openList, n.position = s ∨
    (g0.isWithinWorldBounds n.position ∧ g0.cell n.position ≠ CellType.wall)
  fChar : ∀ n ∈ openList, n.h = heuristic n.position t ∧
    (n.f = n.g + n.h ∨ (n.position = s ∧ n.g = 0 ∧ n.f = 0))
  nodupPos : (openList.map CellNode.position).Nodup
  disj : ∀ n ∈ openList, n.position ∉ closed
  closedNodup : closed.Nodup
  closedPos : ∀ p ∈ closed, p = s ∨
    (g0.isWithinWorldBounds p ∧ g0.cell p ≠ CellType.wall)
  sPresent : s ∈ closed ∨ ∃ n ∈ openList, n.position = s ∧ n.g = 0
  closedFrontier : ∀ p ∈ closed, ∀ q, WalkStep g0 p q → q ∈ closed ∨
    ∃ n ∈ openList, n.position = q ∧ ∀ m, WalkN g0 s p m → n.g ≤ m + 1
  tNotClosed : t ∉ closed

/-! ### Concrete fixtures used by witnesses and counterexamples -/

/-- A 1×1 world of empty cells. -/
def grid1x1 : Grid :=
  { worldWidth := 1, worldHeight := 1, cell := fun _ => CellType.empty }

/-- A 2×1 world of empty cells. -/
def grid2x1 : Grid :=
  { worldWidth := 2, worldHeight := 1, cell := fun _ => CellType.empty }

/-- A 2×1 world whose right cell is a wall. -/
def grid2x1Wall : Grid :=
  { worldWidth := 2, worldHeight := 1,
    cell := fun p => if p = ⟨1, 0⟩ then CellType.wall else CellType.empty }

/-- A 3×1 world whose middle cell is tagged `Player`. -/
def grid3x1Player : Grid :=
  { worldWidth := 3, worldHeight := 1,
    cell := fun p => if p = ⟨1, 0⟩ then CellType.player else CellType.empty }

/-- A 1×1 world whose cell is tagged `QueuedTarget`. -/
def grid1x1Queued : Grid :=
  { worldWidth := 1, worldHeight := 1, cell := fun _ => CellType.queuedTarget }

/-- A 2×2 world of empty cells. -/
def grid2x2 : Grid :=
  { worldWidth := 2, worldHeight := 2, cell := fun _ => CellType.empty }

/-! ### Basic lemmas about the grid operations -/

theorem Grid.setCell_cell (g : Grid) (p : Position) (t : CellType) (q : Position) :
    (g.setCell p t).cell q = if g.isWithinWorldBounds p ∧ q = p then t else g.cell q := by
  unfold Grid.setCell
  by_cases hb : g.isWithinWorldBounds p
  · by_cases hq : q = p
    · simp [hb, hq]
    · simp [hb, hq]
  · simp [hb]

theorem Grid.setCell_worldWidth (g : Grid) (p : Position) (t : CellType) :
    (g.setCell p t).worldWidth = g.worldWidth := by
  unfold Grid.setCell
  split <;> rfl

theorem Grid.setCell_worldHeight (g : Grid) (p : Position) (t : CellType) :
    (g.setCell p t).worldHeight = g.worldHeight := by
  unfold Grid.setCell
  split <;> rfl

theorem SameDims.refl (g : Grid) : SameDims g g := ⟨rfl, rfl⟩

theorem SameDims.trans {g1 g2 g3 : Grid} (h1 : SameDims g1 g2) (h2 : SameDims g2 g3) :
    SameDims g1 g3 := ⟨h2.1.trans h1.1, h2.2.trans h1.2⟩

theorem SameDims.bounds_iff {g g' : Grid} (h : SameDims g g') (p : Position) :
    g'.isWithinWorldBounds p ↔ g.isWithinWorldBounds p := by
  unfold Grid.isWithinWorldBounds
  rw [h.1, h.2]

theorem SameDims.setCell (g : Grid) (p : Position) (t : CellType) :
    SameDims g (g.setCell p t) := ⟨g.setCell_worldWidth p t, g.setCell_worldHeight p t⟩

theorem Eapprox.refl_eapprox (g : Grid) : Eapprox g g := ⟨SameDims.refl g, fun _ => Or.inl rfl⟩

theorem Eapprox.trans_eapprox {g1 g2 g3 : Grid} (h1 : Eapprox g1 g2) (h2 : Eapprox g2 g3) :
    Eapprox g1 g3 := by
  refine ⟨h1.1.trans h2.1, fun p => ?_⟩
  rcases h2.2 p with h | h
  · rw [h]
    exact h1.2 p
  · exact Or.inr h

theorem EWapprox.refl_ewapprox (g : Grid) : EWapprox g g := ⟨SameDims.refl g, fun _ => Or.inl rfl⟩

theorem EWapprox.trans_ewapprox {g1 g2 g3 : Grid} (h1 : EWapprox g1 g2) (h2 : EWapprox g2 g3) :
    EWapprox g1 g3 := by
  refine ⟨h1.1.trans h2.1, fun p => ?_⟩
  rcases h2.2 p with h | h
  · rw [h]
    exact h1.2 p
  · exact Or.inr h

theorem Eapprox.toEW {g g' : Grid} (h : Eapprox g g') : EWapprox g g' :=
  ⟨h.1, fun p => (h.2 p).imp id Or.inl⟩

theorem Eapprox.setCell_empty (g : Grid) (p : Position) :
    Eapprox g (g.setCell p CellType.empty) := by
  refine ⟨SameDims.setCell g p _, fun q => ?_⟩
  rw [Grid.setCell_cell]
  split
  · exact Or.inr rfl
  · exact Or.inl rfl

theorem EWapprox.setCell_ew (g : Grid) (p : Position) {t : CellType}
    (ht : t = CellType.empty ∨ t = CellType.wall) : EWapprox g (g.setCell p t) := by
  refine ⟨SameDims.setCell g p _, fun q => ?_⟩
  rw [Grid.setCell_cell]
  split
  · rcases ht with h | h
    · exact Or.inr (Or.inl h)
    · exact Or.inr (Or.inr h)
  · exact Or.inl rfl

/-- A fold over a grid whose every step only rewrites cells to `Empty`
only rewrites cells to `Empty`. -/
theorem foldl_eapprox_grid {α : Type*} (f : Grid → α → Grid)
    (hstep : ∀ s a, Eapprox s (f s a)) :
    ∀ (l : List α) (s : Grid), Eapprox s (l.foldl f s) := by
  intro l
  induction l with
  | nil => intro s; exact Eapprox.refl_eapprox s
  | cons a l ih => intro s; exact (hstep s a).trans_eapprox (ih (f s a))

/-- A fold over grid-and-RNG state whose every step only rewrites cells to
`Empty` only rewrites cells to `Empty`. -/
theorem foldl_eapprox {α : Type*} (f : Grid × SeededRandom → α → Grid × SeededRandom)
    (hstep : ∀ s a, Eapprox s.1 (f s a).1) :
    ∀ (l : List α) (s : Grid × SeededRandom), Eapprox s.1 (l.foldl f s).1 := by
  intro l
  induction l with
  | nil => intro s; exact Eapprox.refl_eapprox _
  | cons a l ih => intro s; exact (hstep s a).trans_eapprox (ih (f s a))

/-- A fold over a grid whose every step only rewrites cells to `Empty` or
`Wall` only rewrites cells to `Empty` or `Wall`. -/
theorem foldl_ewapprox_grid {α : Type*} (f : Grid → α → Grid)
    (hstep : ∀ s a, EWapprox s (f s a)) :
    ∀ (l : List α) (s : Grid), EWapprox s (l.foldl f s) := by
  intro l
  induction l with
  | nil => intro s; exact EWapprox.refl_ewapprox s
  | cons a l ih => intro s; exact (hstep s a).trans_ewapprox (ih (f s a))

/-- As `foldl_ewapprox_grid`, for grid-and-RNG state. -/
theorem foldl_ewapprox {α : Type*} (f : Grid × SeededRandom → α → Grid × SeededRandom)
    (hstep : ∀ s a, EWapprox s.1 (f s a).1) :
    ∀ (l : List α) (s : Grid × SeededRandom), EWapprox s.1 (l.foldl f s).1 := by
  intro l
  induction l with
  | nil => intro s; exact EWapprox.refl_ewapprox _
  | cons a l ih => intro s; exact (hstep s a).trans_ewapprox (ih (f s a))

/-- As `foldl_ewapprox`, for the cave-list accumulator of
`generateCaves`. -/
theorem foldl_ewapprox3 {α : Type*}
    (f : List (List Position) × Grid × SeededRandom → α →
      List (List Position) × Grid × SeededRandom)
    (hstep : ∀ s a, EWapprox s.2.1 (f s a).2.1) :
    ∀ (l : List α) (s : List (List Position) × Grid × SeededRandom),
      EWapprox s.2.1 (l.foldl f s).2.1 := by
  intro l
  induction l with
  | nil => intro s; exact EWapprox.refl_ewapprox _
  | cons a l ih => intro s; exact (hstep s a).trans_ewapprox (ih (f s a))

theorem OnlyEW.of_EWapprox {g g' : Grid} (h : OnlyEW g) (ha : EWapprox g g') : OnlyEW g' := by
  intro p hp
  rw [ha.1.bounds_iff] at hp
  rcases ha.2 p with hc | hc | hc
  · rw [hc]
    exact h p hp
  · exact Or.inl hc
  · exact Or.inr hc

/-! ### Empty/Wall-write lemmas for the generator stages -/

theorem fillWithWalls_sameDims (g : Grid) : SameDims g (fillWithWalls g) := ⟨rfl, rfl⟩

theorem fillWithWalls_onlyEW (g : Grid) : OnlyEW (fillWithWalls g) := by
  intro p hp
  have hp' : g.isWithinWorldBounds p := by
    rwa [(fillWithWalls_sameDims g).bounds_iff] at hp
  right
  show (if g.isWithinWorldBounds p then CellType.wall else g.cell p) = CellType.wall
  rw [if_pos hp']

theorem eapprox_carveLoop (dx dy : Int) :
    ∀ (j : Nat) (cx cy : Int) (g : Grid) (r : SeededRandom),
      Eapprox g (carveLoop dx dy j cx cy g r).1 := by
  intro j
  induction j with
  | zero => intro cx cy g r; exact Eapprox.refl_eapprox g
  | succ j ih =>
    intro cx cy g r
    simp only [carveLoop]
    split
    · exact Eapprox.refl_eapprox g
    · split
      · exact (Eapprox.setCell_empty g _).trans_eapprox ((Eapprox.setCell_empty _ _).trans_eapprox (ih _ _ _ _))
      · exact (Eapprox.setCell_empty g _).trans_eapprox (ih _ _ _ _)

theorem eapprox_improveConnectivity (g : Grid) (r : SeededRandom) (cells : List Position) :
    Eapprox g (improveConnectivity g r cells).1 := by
  unfold improveConnectivity
  exact foldl_eapprox _ (fun s i => eapprox_carveLoop _ _ _ _ _ s.1 _) _ (g, r)

theorem eapprox_createTunnelLoop (endP : Position) :
    ∀ (fuel : Nat) (cx cy : Int) (g : Grid) (r : SeededRandom),
      Eapprox g (createTunnelLoop endP fuel cx cy g r).1 := by
  intro fuel
  induction fuel with
  | zero => intro cx cy g r; exact Eapprox.refl_eapprox g
  | succ fuel ih =>
    intro cx cy g r
    simp only [createTunnelLoop]
    split
    · exact Eapprox.refl_eapprox g
    · split
      · split
        · exact (Eapprox.setCell_empty g _).trans_eapprox ((Eapprox.setCell_empty _ _).trans_eapprox
            ((Eapprox.setCell_empty _ _).trans_eapprox (ih _ _ _ _)))
        · split
          · exact (Eapprox.setCell_empty g _).trans_eapprox
              ((Eapprox.setCell_empty _ _).trans_eapprox (ih _ _ _ _))
          · exact (Eapprox.setCell_empty g _).trans_eapprox
              ((Eapprox.setCell_empty _ _).trans_eapprox (ih _ _ _ _))
      · exact (Eapprox.setCell_empty g _).trans_eapprox (ih _ _ _ _)

theorem eapprox_createTunnel (g : Grid) (r : SeededRandom) (a b : Position) (tf : Nat) :
    Eapprox g (createTunnel g r a b tf).1 :=
  eapprox_createTunnelLoop b tf a.x a.y g r

theorem eapprox_connectToStart (g : Grid) (r : SeededRandom) (caves : List (List Position))
    (tf : Nat) : Eapprox g (connectToStart g r caves tf).1 := by
  unfold connectToStart
  split
  · exact Eapprox.refl_eapprox g
  · exact eapprox_createTunnel _ _ _ _ _

theorem eapprox_connectCaves (g : Grid) (r : SeededRandom) (caves : List (List Position))
    (tf : Nat) : Eapprox g (connectCaves g r caves tf).1 := by
  unfold connectCaves
  split
  · exact Eapprox.refl_eapprox g
  · dsimp only
    refine Eapprox.trans_eapprox
      (Eapprox.trans_eapprox
        (foldl_eapprox _ (fun s i => ?_) (List.range (caves.length - 1)) (g, r))
        (foldl_eapprox _ (fun s i => ?_) _ _))
      (eapprox_connectToStart _ _ caves tf)
    · dsimp only
      split
      · exact eapprox_createTunnel _ _ _ _ _
      · exact Eapprox.refl_eapprox _
    · dsimp only
      split
      · exact eapprox_createTunnel _ _ _ _ _
      · exact Eapprox.refl_eapprox _

theorem eapprox_addRandomEmptySpaces (g : Grid) (r : SeededRandom) :
    Eapprox g (addRandomEmptySpaces g r).1 := by
  unfold addRandomEmptySpaces
  refine foldl_eapprox _ (fun s i => ?_) _ (g, r)
  dsimp only
  split
  · split
    · split
      · exact (Eapprox.setCell_empty _ _).trans_eapprox (Eapprox.setCell_empty _ _)
      · exact Eapprox.setCell_empty _ _
    · exact Eapprox.refl_eapprox _
  · exact Eapprox.refl_eapprox _

theorem eapprox_clearStartArea (g : Grid) : Eapprox g (clearStartArea g) := by
  unfold clearStartArea
  refine foldl_eapprox_grid _ (fun gg y => ?_) _ g
  exact foldl_eapprox_grid _ (fun gg2 x => Eapprox.setCell_empty _ _) _ gg

theorem ewapprox_smoothCave (g : Grid) (r : SeededRandom) (sx sy ex ey : Int) :
    EWapprox g (smoothCave g r sx sy ex ey).1 := by
  unfold smoothCave
  refine foldl_ewapprox _ (fun s i => ?_) _ (g, r)
  dsimp only
  refine foldl_ewapprox_grid _ (fun gg y => ?_) _ s.1
  refine foldl_ewapprox_grid _ (fun gg2 x => ?_) _ gg
  dsimp only
  split
  · exact EWapprox.setCell_ew _ _ (Or.inr rfl)
  · exact EWapprox.setCell_ew _ _ (Or.inl rfl)

theorem ewapprox_generateCave (g : Grid) (r : SeededRandom) (sx sy w h : Int) :
    EWapprox g (generateCave g r sx sy w h).2.1 := by
  unfold generateCave
  refine EWapprox.trans_ewapprox (foldl_ewapprox _ (fun s y => ?_) _ (g, r))
    (ewapprox_smoothCave _ _ _ _ _ _)
  refine foldl_ewapprox _ (fun s2 x => ?_) _ s
  dsimp only
  split
  · split
    · exact EWapprox.setCell_ew _ _ (Or.inl rfl)
    · exact EWapprox.setCell_ew _ _ (Or.inr rfl)
  · exact EWapprox.refl_ewapprox _

theorem ewapprox_generateCaves (g : Grid) (r : SeededRandom) :
    EWapprox g (generateCaves g r).2.1 := by
  unfold generateCaves
  refine foldl_ewapprox3 _ (fun s i => ?_) _ ([], g, r)
  dsimp only
  split
  · split
    · exact ewapprox_generateCave _ _ _ _ _ _
    · exact ewapprox_generateCave _ _ _ _ _ _
  · exact EWapprox.refl_ewapprox _

/-! ### Soundness of the flood fill and the connectivity invariant (C1) -/

theorem VisReach.mono {V V' : Position → Bool} (hsub : ∀ p, V p = true → V' p = true)
    {p : Position} (h : VisReach V p) : VisReach V' p :=
  Relation.ReflTransGen.mono (fun _ b hab => ⟨hab.1, hsub b hab.2⟩) h

theorem adj_right (x y : Int) : Adj ⟨x, y⟩ ⟨x + 1, y⟩ := by
  unfold Adj
  simp only
  omega

theorem adj_left (x y : Int) : Adj ⟨x, y⟩ ⟨x - 1, y⟩ := by
  unfold Adj
  simp only
  omega

theorem adj_down (x y : Int) : Adj ⟨x, y⟩ ⟨x, y + 1⟩ := by
  unfold Adj
  simp only
  omega

theorem adj_up (x y : Int) : Adj ⟨x, y⟩ ⟨x, y - 1⟩ := by
  unfold Adj
  simp only
  omega

/-- Soundness of `floodFill`, for every fuel: the marked set only grows,
and afterwards every marked position is an in-bounds non-wall cell
connected to the origin through marked cells. -/
theorem floodFill_sound (g : Grid) :
    ∀ (fuel : Nat) (x y : Int) (V : Position → Bool) (cells : List Position),
      FFInv g V →
      ((x = 0 ∧ y = 0) ∨ ∃ q, V q = true ∧ Adj q ⟨x, y⟩) →
      (∀ p, V p = true → (floodFill g fuel x y V cells).1 p = true) ∧
        FFInv g (floodFill g fuel x y V cells).1 := by
  intro fuel
  induction fuel with
  | zero =>
    intro x y V cells hInv _
    exact ⟨fun p hp => hp, hInv⟩
  | succ fuel ih =>
    intro x y V cells hInv hPre
    simp only [floodFill]
    by_cases h1 : ¬g.isWithinWorldBounds ⟨x, y⟩ ∨ V ⟨x, y⟩ = true
    · rw [if_pos h1]
      exact ⟨fun p hp => hp, hInv⟩
    · rw [if_neg h1]
      push_neg at h1
      by_cases h2 : g.cell ⟨x, y⟩ = CellType.wall
      · rw [if_pos h2]
        exact ⟨fun p hp => hp, hInv⟩
      · rw [if_neg h2]
        have hxy : g.isWithinWorldBounds ⟨x, y⟩ := h1.1
        have hnotV : V ⟨x, y⟩ = false := by
          cases hv : V ⟨x, y⟩
          · rfl
          · exact absurd hv h1.2
        set V1 : Position → Bool := fun p => if p = Position.mk x y then true else V p with hV1
        have hmono01 : ∀ p, V p = true → V1 p = true := by
          intro p hp
          rw [hV1]
          by_cases hpe : p = Position.mk x y
          · simp [hpe]
          · simp [hpe, hp]
        have hV1xy : V1 ⟨x, y⟩ = true := by simp [hV1]
        have hInv1 : FFInv g V1 := by
          intro p hp
          by_cases hpe : p = Position.mk x y
          · subst hpe
            refine ⟨hxy, h2, ?_⟩
            rcases hPre with ⟨hx0, hy0⟩ | ⟨q, hq, hadj⟩
            · subst hx0
              subst hy0
              exact Relation.ReflTransGen.refl
            · exact Relation.ReflTransGen.tail
                ((hInv q hq).2.2.mono hmono01) ⟨hadj, hV1xy⟩
          · have hp' : V p = true := by
              rw [hV1] at hp
              simpa [hpe] using hp
            obtain ⟨hb, hw, hr⟩ := hInv p hp'
            exact ⟨hb, hw, hr.mono hmono01⟩
        set s1 := floodFill g fuel (x + 1) y V1 (cells ++ [Position.mk x y]) with hs1
        set s2 := floodFill g fuel (x - 1) y s1.1 s1.2 with hs2
        set s3 := floodFill g fuel x (y + 1) s2.1 s2.2 with hs3
        have h1' := ih (x + 1) y V1 (cells ++ [Position.mk x y]) hInv1
          (Or.inr ⟨⟨x, y⟩, hV1xy, adj_right x y⟩)
        rw [← hs1] at h1'
        have h2' := ih (x - 1) y s1.1 s1.2 h1'.2
          (Or.inr ⟨⟨x, y⟩, h1'.1 _ hV1xy, adj_left x y⟩)
        rw [← hs2] at h2'
        have h3' := ih x (y + 1) s2.1 s2.2 h2'.2
          (Or.inr ⟨⟨x, y⟩, h2'.1 _ (h1'.1 _ hV1xy), adj_down x y⟩)
        rw [← hs3] at h3'
        have h4' := ih x (y - 1) s3.1 s3.2 h3'.2
          (Or.inr ⟨⟨x, y⟩, h3'.1 _ (h2'.1 _ (h1'.1 _ hV1xy)), adj_up x y⟩)
        exact ⟨fun p hp => h4'.1 _ (h3'.1 _ (h2'.1 _ (h1'.1 _ (hmono01 p hp)))), h4'.2⟩

/-- Pointwise description of `fillUnreachable`. -/
theorem fillUnreachable_cell (g1 : Grid) (V : Position → Bool) (p : Position) :
    (fillUnreachable g1 V).cell p =
      if g1.isWithinWorldBounds p ∧ g1.cell p = CellType.empty ∧ V p = false then
        CellType.wall
      else g1.cell p := rfl

theorem fillUnreachable_sameDims (g1 : Grid) (V : Position → Bool) :
    SameDims g1 (fillUnreachable g1 V) := ⟨rfl, rfl⟩

/-- Core of the connectivity argument: if every cell of `g` is `Empty` or
`Wall`, `V` is a sound flood-fill marking of `g`, and `g1` differs from
`g` only by cells rewritten to `Empty` (the repair pass), then in
`fillUnreachable g1 V` every in-bounds `Empty` cell is reachable from the
origin via 4-connected `Empty` cells. -/
theorem fillUnreachable_connected {g g1 : Grid} {V : Position → Bool} (hEW : OnlyEW g)
    (hInv : FFInv g V) (hEa : Eapprox g g1) :
    ∀ p, (fillUnreachable g1 V).isWithinWorldBounds p →
      (fillUnreachable g1 V).cell p = CellType.empty →
      EmptyReachable (fillUnreachable g1 V) p := by
  have hdims : SameDims g (fillUnreachable g1 V) :=
    hEa.1.trans (fillUnreachable_sameDims g1 V)
  intro p hbp hcp
  have hbp1 : g1.isWithinWorldBounds p := by
    rw [(fillUnreachable_sameDims g1 V).bounds_iff] at hbp
    exact hbp
  have hVp : V p = true := by
    by_cases hv : V p = true
    · exact hv
    · exfalso
      have hv' : V p = false := by
        cases hvv : V p
        · rfl
        · exact absurd hvv hv
      rw [fillUnreachable_cell] at hcp
      by_cases hemp : g1.cell p = CellType.empty
      · rw [if_pos ⟨hbp1, hemp, hv'⟩] at hcp
        exact absurd hcp (by simp)
      · rw [if_neg (by tauto)] at hcp
        exact absurd hcp hemp
  have hcellV : ∀ q, V q = true → (fillUnreachable g1 V).cell q = CellType.empty := by
    intro q hq
    obtain ⟨hb, hw, _⟩ := hInv q hq
    have hgq : g.cell q = CellType.empty := by
      rcases hEW q hb with h | h
      · exact h
      · exact absurd h hw
    have hg1q : g1.cell q = CellType.empty := by
      rcases hEa.2 q with h | h
      · rw [h, hgq]
      · exact h
    rw [fillUnreachable_cell, if_neg (by simp [hq])]
    exact hg1q
  have hreach := (hInv p hVp).2.2
  refine Relation.ReflTransGen.mono (fun a b hab => ?_) hreach
  obtain ⟨hadj, hVb⟩ := hab
  obtain ⟨hbb, _, _⟩ := hInv b hVb
  exact ⟨hadj, by rw [hdims.bounds_iff]; exact hbb, hcellV b hVb⟩

/-- After `ensureConnectivity`, every in-bounds `Empty` cell is reachable
from the origin via 4-connected `Empty` cells, provided every cell was
`Empty` or `Wall` on entry; dimensions are preserved. -/
theorem ensureConnectivity_connected (g : Grid) (r : SeededRandom) (hEW : OnlyEW g) :
    SameDims g (ensureConnectivity g r).1 ∧
      ∀ p, (ensureConnectivity g r).1.isWithinWorldBounds p →
        (ensureConnectivity g r).1.cell p = CellType.empty →
        EmptyReachable (ensureConnectivity g r).1 p := by
  have hff := floodFill_sound g (g.worldWidth * g.worldHeight + 2) 0 0 (fun _ => false) []
    (fun p hp => absurd hp (by simp)) (Or.inl ⟨rfl, rfl⟩)
  have key : ∀ (imp : Grid × SeededRandom) (V : Position → Bool), FFInv g V →
      Eapprox g imp.1 →
      SameDims g (fillUnreachable imp.1 V) ∧
        ∀ p, (fillUnreachable imp.1 V).isWithinWorldBounds p →
          (fillUnreachable imp.1 V).cell p = CellType.empty →
          EmptyReachable (fillUnreachable imp.1 V) p :=
    fun imp V hInv hEa =>
      ⟨hEa.1.trans (fillUnreachable_sameDims _ _), fillUnreachable_connected hEW hInv hEa⟩
  unfold ensureConnectivity
  dsimp only
  refine key _ _ hff.2 ?_
  split
  · exact eapprox_improveConnectivity g r _
  · exact Eapprox.refl_eapprox g

/-- C1: after `generateWorld` (for any prior generator state, any seed
argument, any initial grid and any tunnel fuel), every in-bounds `Empty`
cell of the resulting grid is reachable from the origin (0,0) via a path
of 4-connected `Empty` cells: the flood fill is run once, and every cell
still `Empty` but not marked reachable is converted to `Wall`, so no
unreachable `Empty` cell remains. -/
theorem generateWorld_connectivity (rng : SeededRandom) (newSeed : Option Int) (g : Grid)
    (tf : Nat) (p : Position)
    (hb : ((generateWorld rng newSeed g tf).1).isWithinWorldBounds p)
    (hc : ((generateWorld rng newSeed g tf).1).cell p = CellType.empty) :
    EmptyReachable (generateWorld rng newSeed g tf).1 p := by
  unfold generateWorld at hb hc ⊢
  dsimp only at hb hc ⊢
  refine (ensureConnectivity_connected _ _ ?_).2 p hb hc
  exact ((((fillWithWalls_onlyEW g).of_EWapprox
    (ewapprox_generateCaves _ _)).of_EWapprox
    (eapprox_connectCaves _ _ _ _).toEW).of_EWapprox
    (eapprox_addRandomEmptySpaces _ _).toEW).of_EWapprox
    (eapprox_clearStartArea _).toEW

/-- `ensureConnectivity` preserves the grid dimensions. -/
theorem ensureConnectivity_sameDims (g : Grid) (r : SeededRandom) :
    SameDims g (ensureConnectivity g r).1 := by
  have key : ∀ (imp : Grid × SeededRandom) (V : Position → Bool), Eapprox g imp.1 →
      SameDims g (fillUnreachable imp.1 V) :=
    fun imp V hEa => hEa.1.trans (fillUnreachable_sameDims _ _)
  unfold ensureConnectivity
  dsimp only
  refine key _ _ ?_
  split
  · exact eapprox_improveConnectivity g r _
  · exact Eapprox.refl_eapprox g

/-- `generateWorld` preserves the grid dimensions. -/
theorem generateWorld_sameDims (rng : SeededRandom) (newSeed : Option Int) (g : Grid)
    (tf : Nat) : SameDims g (generateWorld rng newSeed g tf).1 := by
  unfold generateWorld
  dsimp only
  refine SameDims.trans ?_ (ensureConnectivity_sameDims _ _)
  exact ((((fillWithWalls_sameDims g).trans (ewapprox_generateCaves _ _).1).trans
    (eapprox_connectCaves _ _ _ _).1).trans
    (eapprox_addRandomEmptySpaces _ _).1).trans (eapprox_clearStartArea _).1

/-- `clearStartArea` leaves the origin cell `Empty` (it is the first of
the nine cells cleared, and the later writes are at other positions). -/
theorem clearStartArea_origin (g : Grid) (hb : g.isWithinWorldBounds ⟨0, 0⟩) :
    (clearStartArea g).cell ⟨0, 0⟩ = CellType.empty := by
  unfold clearStartArea
  have h3 : List.range 3 = [0, 1, 2] := rfl
  rw [h3]
  simp only [List.foldl]
  norm_num [Grid.setCell_cell, Position.mk.injEq, hb]

/-- With at least one unit of fuel, the flood fill marks an in-bounds
non-wall origin. -/
theorem floodFill_marks_origin (g : Grid) (fuel : Nat) (hb : g.isWithinWorldBounds ⟨0, 0⟩)
    (hw : g.cell ⟨0, 0⟩ ≠ CellType.wall) :
    (floodFill g (fuel + 1) 0 0 (fun _ => false) []).1 ⟨0, 0⟩ = true := by
  simp only [floodFill]
  have hc1 : ¬(¬g.isWithinWorldBounds ⟨0, 0⟩ ∨ (false = true)) := by simp [hb]
  rw [if_neg hc1, if_neg hw]
  set V1 : Position → Bool :=
    fun p => if p = Position.mk 0 0 then true else false with hV1
  have hV1o : V1 ⟨0, 0⟩ = true := by simp [hV1]
  have hInv1 : FFInv g V1 := by
    intro p hp
    have hpo : p = Position.mk 0 0 := by
      by_cases h : p = Position.mk 0 0
      · exact h
      · rw [hV1] at hp
        simp [h] at hp
    subst hpo
    exact ⟨hb, hw, Relation.ReflTransGen.refl⟩
  set s1 := floodFill g fuel (0 + 1) 0 V1 ([] ++ [Position.mk 0 0]) with hs1
  set s2 := floodFill g fuel (0 - 1) 0 s1.1 s1.2 with hs2
  set s3 := floodFill g fuel 0 (0 + 1) s2.1 s2.2 with hs3
  have h1' := floodFill_sound g fuel (0 + 1) 0 V1 ([] ++ [Position.mk 0 0]) hInv1
    (Or.inr ⟨⟨0, 0⟩, hV1o, adj_right 0 0⟩)
  rw [← hs1] at h1'
  have h2' := floodFill_sound g fuel (0 - 1) 0 s1.1 s1.2 h1'.2
    (Or.inr ⟨⟨0, 0⟩, h1'.1 _ hV1o, adj_left 0 0⟩)
  rw [← hs2] at h2'
  have h3' := floodFill_sound g fuel 0 (0 + 1) s2.1 s2.2 h2'.2
    (Or.inr ⟨⟨0, 0⟩, h2'.1 _ (h1'.1 _ hV1o), adj_down 0 0⟩)
  rw [← hs3] at h3'
  have h4' := floodFill_sound g fuel 0 (0 - 1) s3.1 s3.2 h3'.2
    (Or.inr ⟨⟨0, 0⟩, h3'.1 _ (h2'.1 _ (h1'.1 _ hV1o)), adj_up 0 0⟩)
  exact h4'.1 _ (h3'.1 _ (h2'.1 _ (h1'.1 _ hV1o)))

/-- `ensureConnectivity` keeps an in-bounds `Empty` origin `Empty`. -/
theorem ensureConnectivity_origin (g : Grid) (r : SeededRandom)
    (hb : g.isWithinWorldBounds ⟨0, 0⟩) (he : g.cell ⟨0, 0⟩ = CellType.empty) :
    (ensureConnectivity g r).1.cell ⟨0, 0⟩ = CellType.empty := by
  have hw : g.cell ⟨0, 0⟩ ≠ CellType.wall := by rw [he]; simp
  have hV : (floodFill g (g.worldWidth * g.worldHeight + 2) 0 0
      (fun _ => false) []).1 ⟨0, 0⟩ = true := by
    have h2 : g.worldWidth * g.worldHeight + 2 = (g.worldWidth * g.worldHeight + 1) + 1 := rfl
    rw [h2]
    exact floodFill_marks_origin g _ hb hw
  have key : ∀ (imp : Grid × SeededRandom) (V : Position → Bool), V ⟨0, 0⟩ = true →
      Eapprox g imp.1 → (fillUnreachable imp.1 V).cell ⟨0, 0⟩ = CellType.empty := by
    intro imp V hVtrue hEa
    rw [fillUnreachable_cell, if_neg (by simp [hVtrue])]
    rcases hEa.2 ⟨0, 0⟩ with h | h
    · rw [h, he]
    · exact h
  unfold ensureConnectivity
  dsimp only
  refine key _ _ hV ?_
  split
  · exact eapprox_improveConnectivity g r _
  · exact Eapprox.refl_eapprox g

/-- After `generateWorld` the origin cell is `Empty` whenever it is in
bounds (the start-clearing stage forces it, and the connectivity stage
keeps reachable cells). -/
theorem generateWorld_origin_empty (rng : SeededRandom) (newSeed : Option Int) (g : Grid)
    (tf : Nat) (hb : g.isWithinWorldBounds ⟨0, 0⟩) :
    (generateWorld rng newSeed g tf).1.cell ⟨0, 0⟩ = CellType.empty := by
  unfold generateWorld
  dsimp only
  have key : ∀ (ar : Grid × SeededRandom), SameDims g ar.1 →
      (ensureConnectivity (clearStartArea ar.1) ar.2).1.cell ⟨0, 0⟩ = CellType.empty := by
    intro ar hd
    have hb4 : ar.1.isWithinWorldBounds ⟨0, 0⟩ := by
      rw [hd.bounds_iff]
      exact hb
    have hb5 : (clearStartArea ar.1).isWithinWorldBounds ⟨0, 0⟩ := by
      rw [(eapprox_clearStartArea ar.1).1.bounds_iff]
      exact hb4
    exact ensureConnectivity_origin _ _ hb5 (clearStartArea_origin ar.1 hb4)
  refine key _ ?_
  exact (((fillWithWalls_sameDims g).trans (ewapprox_generateCaves _ _).1).trans
    (eapprox_connectCaves _ _ _ _).1).trans (eapprox_addRandomEmptySpaces _ _).1

/-- Witness for C1 at a concrete seed and world. -/
theorem generateWorld_connectivity_witness :
    EmptyReachable (generateWorld (SeededRandom.create 0) (some 1) grid1x1 0).1 ⟨0, 0⟩ :=
  generateWorld_connectivity (SeededRandom.create 0) (some 1) grid1x1 0 ⟨0, 0⟩
    (by rw [(generateWorld_sameDims (SeededRandom.create 0) (some 1) grid1x1 0).bounds_iff]
        decide)
    (generateWorld_origin_empty (SeededRandom.create 0) (some 1) grid1x1 0 (by decide))

/-- C4: world generation is deterministic in the seed: for every seed `s`,
running `generateWorld` with seed `s` from the same initial grid produces
identical final cell-state grids regardless of the generator's prior RNG
state (the source's `setSeed` builds a fresh generator from `s`, making
the run a pure function of the seed, the grid and the fuel). -/
theorem generateWorld_deterministic (rngA rngB : SeededRandom) (s : Int) (g : Grid)
    (tf : Nat) (p : Position) :
    ((generateWorld rngA (some s) g tf).1).cell p =
      ((generateWorld rngB (some s) g tf).1).cell p := by
  unfold generateWorld
  dsimp only

/-- C7: two RNG instances constructed with the same numeric seed produce
identical output sequences, and `reset()` after any number of calls
reproduces the original sequence from the start. -/
theorem seededRandom_reproducible (s : Int) (r1 r2 : SeededRandom)
    (h1 : r1 = SeededRandom.create s) (h2 : r2 = SeededRandom.create s) (n k : Nat) :
    r1.randoms n = r2.randoms n ∧
      ((SeededRandom.create s).advance k).reset.randoms n =
        (SeededRandom.create s).randoms n := by
  subst h1
  subst h2
  refine ⟨rfl, ?_⟩
  have hseed : ∀ (m : Nat) (r : SeededRandom), (r.advance m).seed = r.seed := by
    intro m
    induction m with
    | zero => intro r; rfl
    | succ m ih => intro r; exact ih r.random.2
  have hreset : ((SeededRandom.create s).advance k).reset = SeededRandom.create s := by
    have hs : ((SeededRandom.create s).advance k).seed = s :=
      (hseed k (SeededRandom.create s)).trans rfl
    calc ((SeededRandom.create s).advance k).reset
        = SeededRandom.mk ((SeededRandom.create s).advance k).seed
            ((SeededRandom.create s).advance k).seed := rfl
      _ = SeededRandom.mk s s := by rw [hs]
  rw [hreset]

/-- Witness for C7 at a concrete seed. -/
theorem seededRandom_reproducible_witness :
    (SeededRandom.create 7).randoms 3 = (SeededRandom.create 7).randoms 3 ∧
      ((SeededRandom.create 7).advance 2).reset.randoms 3 =
        (SeededRandom.create 7).randoms 3 :=
  seededRandom_reproducible 7 (SeededRandom.create 7) (SeededRandom.create 7) rfl rfl 3 2

/-- Counterexample to C5: `randomInt(5, 2)` (min > max) does not fail with
an `InvalidRange` error; the source has no range check at all, and the
call silently returns the value 3 on the RNG state seeded with 1. -/
theorem randomInt_no_error_counterexample :
    ((SeededRandom.create 1).randomInt 5 2).1 = 3 := by
  have hbits : (SeededRandom.create 1).randomBits =
      (2693262067, SeededRandom.mk 1 1831565814) := by decide
  have hfl : ⌊((2693262067 : ℚ)) / 4294967296 * ((2 : ℚ) - 5 + 1)⌋ = -2 := by
    rw [show (2693262067 : ℚ) / 4294967296 * ((2 : ℚ) - 5 + 1) =
        -(2693262067 : ℚ) / 2147483648 by ring]
    rw [Int.floor_eq_iff]
    norm_num
  simp only [SeededRandom.randomInt, SeededRandom.random, hbits]
  push_cast
  rw [hfl]
  norm_num

/-- The raw Mulberry32 output is a 32-bit value. -/
theorem randomBits_lt (r : SeededRandom) : r.randomBits.1 < 4294967296 := by
  have hpow : (4294967296 : Nat) = 2 ^ 32 := by norm_num
  have hmod : ∀ a : Nat, a % 4294967296 < 4294967296 := fun a => Nat.mod_lt _ (by norm_num)
  have hx : ∀ a b : Nat, a < 4294967296 → b < 4294967296 → (a ^^^ b) < 4294967296 := by
    intro a b ha hb
    rw [hpow] at ha hb ⊢
    exact Nat.xor_lt_two_pow ha hb
  have hshift : ∀ a k : Nat, a >>> k ≤ a := by
    intro a k
    rw [Nat.shiftRight_eq_div_pow]
    exact Nat.div_le_self _ _
  unfold SeededRandom.randomBits
  dsimp only
  exact hx _ _ (hx _ _ (hmod _) (hmod _))
    (Nat.lt_of_le_of_lt (hshift _ _) (hx _ _ (hmod _) (hmod _)))

/-- The fractional RNG output lies in [0, 1). -/
theorem random_mem_Ico (r : SeededRandom) : 0 ≤ r.random.1 ∧ r.random.1 < 1 := by
  unfold SeededRandom.random
  dsimp only
  constructor
  · positivity
  · rw [div_lt_one (by norm_num)]
    exact_mod_cast randomBits_lt r

/-- C5 amended: calling `randomInt(min, max)` with `min > max` raises no
error; it silently returns `Math.floor(random() * (max - min + 1)) + min`,
a value strictly greater than `max` and at most `min`. -/
theorem randomInt_min_gt_max (r : SeededRandom) (min max : Int) (h : max < min) :
    max < (r.randomInt min max).1 ∧ (r.randomInt min max).1 ≤ min := by
  unfold SeededRandom.randomInt
  dsimp only
  obtain ⟨hq0, hq1⟩ := random_mem_Ico r
  set q := r.random.1 with hq
  have hnn : ((max : ℚ) - (min : ℚ) + 1) ≤ 0 := by
    have hmn : max + 1 ≤ min := h
    have hc : ((max : ℚ) + 1) ≤ (min : ℚ) := by exact_mod_cast hmn
    linarith
  have hprod_le : q * ((max : ℚ) - (min : ℚ) + 1) ≤ 0 :=
    mul_nonpos_of_nonneg_of_nonpos hq0 hnn
  have hprod_ge : ((max : ℚ) - (min : ℚ) + 1) ≤ q * ((max : ℚ) - (min : ℚ) + 1) := by
    calc ((max : ℚ) - (min : ℚ) + 1) = 1 * ((max : ℚ) - (min : ℚ) + 1) := by ring
      _ ≤ q * ((max : ℚ) - (min : ℚ) + 1) := by
          exact mul_le_mul_of_nonpos_right (le_of_lt hq1) hnn
  have hfl_le : ⌊q * ((max : ℚ) - (min : ℚ) + 1)⌋ ≤ 0 := by
    calc ⌊q * ((max : ℚ) - (min : ℚ) + 1)⌋ ≤ ⌊(0 : ℚ)⌋ := Int.floor_le_floor hprod_le
      _ = 0 := Int.floor_zero
  have hfl_ge : max - min + 1 ≤ ⌊q * ((max : ℚ) - (min : ℚ) + 1)⌋ := by
    rw [Int.le_floor]
    push_cast
    exact hprod_ge
  constructor
  · omega
  · omega

/-- Witness for the amended C5 at a concrete state and range. -/
theorem randomInt_min_gt_max_witness :
    2 < ((SeededRandom.create 1).randomInt 5 2).1 ∧
      ((SeededRandom.create 1).randomInt 5 2).1 ≤ 5 :=
  randomInt_min_gt_max (SeededRandom.create 1) 5 2 (by decide)

/-- Counterexample to C6: `resetPath` does not clear the `QueuedTarget`
visualization tag: on a world whose only cell is tagged `QueuedTarget`,
the tag survives, so not every cell carrying one of the five
visualization tags is reset to `Empty`. -/
theorem resetPath_counterexample :
    grid1x1Queued.cell ⟨0, 0⟩ = CellType.queuedTarget ∧
      (grid1x1Queued.resetPath).cell ⟨0, 0⟩ = CellType.queuedTarget := by decide

/-- C6 amended: `resetPath` resets exactly the cells tagged `Path`,
`Visited` or `Target` to `Empty` and leaves every other cell (including
`Wall`, `Player`, and the remaining visualization tags `QueuedTarget` and
`PlayerTrail`) unchanged; afterwards no cell carries `Path`, `Visited` or
`Target`. -/
theorem resetPath_spec (g : Grid) (p : Position) (hb : g.isWithinWorldBounds p) :
    ((g.resetPath).cell p =
      if g.cell p = CellType.path ∨ g.cell p = CellType.visited ∨ g.cell p = CellType.target
      then CellType.empty else g.cell p) ∧
      (g.resetPath).cell p ≠ CellType.path ∧ (g.resetPath).cell p ≠ CellType.visited ∧
        (g.resetPath).cell p ≠ CellType.target := by
  unfold Grid.resetPath
  dsimp only
  by_cases h : g.cell p = CellType.path ∨ g.cell p = CellType.visited ∨
      g.cell p = CellType.target
  · rw [if_pos ⟨hb, h⟩, if_pos h]
    refine ⟨rfl, ?_, ?_, ?_⟩ <;> simp
  · rw [if_neg (by tauto), if_neg h]
    push_neg at h
    exact ⟨rfl, h.1, h.2.1, h.2.2⟩

/-- A bounds-checked `getCell` on an in-bounds position yields the cell
state. -/
theorem Grid.getCell_of_inB {g : Grid} {p : Position} (hb : g.isWithinWorldBounds p) :
    g.getCell p = some (g.cell p) := if_pos hb

/-- An enqueue click on an in-bounds non-wall non-player cell pushes the
position and tags the cell. -/
theorem handleGridClick_success (g : Grid) (q : List Position) (p : Position)
    (hb : g.isWithinWorldBounds p) (hw : g.cell p ≠ CellType.wall)
    (hp : g.cell p ≠ CellType.player) :
    handleGridClick g q p = (g.setCell p CellType.queuedTarget, q ++ [p]) := by
  unfold handleGridClick
  rw [Grid.getCell_of_inB hb]
  dsimp only
  rw [if_pos ⟨hw, hp⟩]

/-- C9: after enqueueing three destinations (none yet started), removing
the queued request at index 1 leaves the queue equal to the first and
third destination in order, and the removed destination's cell reverts
from `QueuedTarget` to `Empty`; removing with any out-of-range index
leaves the queue and the grid unchanged. -/
theorem queue_integrity (g : Grid) (p1 p2 p3 : Position)
    (hb1 : g.isWithinWorldBounds p1) (hw1 : g.cell p1 ≠ CellType.wall)
    (hp1 : g.cell p1 ≠ CellType.player)
    (hb2 : g.isWithinWorldBounds p2) (hw2 : g.cell p2 ≠ CellType.wall)
    (hp2 : g.cell p2 ≠ CellType.player)
    (hb3 : g.isWithinWorldBounds p3) (hw3 : g.cell p3 ≠ CellType.wall)
    (hp3 : g.cell p3 ≠ CellType.player) :
    let s1 := handleGridClick g [] p1
    let s2 := handleGridClick s1.1 s1.2 p2
    let s3 := handleGridClick s2.1 s2.2 p3
    s3.2 = [p1, p2, p3] ∧
      s3.1.cell p2 = CellType.queuedTarget ∧
      removeTaskFromQueue s3.1 s3.2 1 = (s3.1.setCell p2 CellType.empty, [p1, p3]) ∧
      (removeTaskFromQueue s3.1 s3.2 1).1.cell p2 = CellType.empty ∧
      ∀ i : Int, i < 0 ∨ 3 ≤ i → removeTaskFromQueue s3.1 s3.2 i = (s3.1, s3.2) := by
  intro s1 s2 s3
  have keep : ∀ (gg : Grid) (a b : Position), gg.cell b ≠ CellType.wall →
      gg.cell b ≠ CellType.player →
      (gg.setCell a CellType.queuedTarget).cell b ≠ CellType.wall ∧
        (gg.setCell a CellType.queuedTarget).cell b ≠ CellType.player := by
    intro gg a b hw hp
    rw [Grid.setCell_cell]
    split
    · exact ⟨by simp, by simp⟩
    · exact ⟨hw, hp⟩
  have hb2' : (g.setCell p1 CellType.queuedTarget).isWithinWorldBounds p2 := by
    rw [(SameDims.setCell g p1 _).bounds_iff]
    exact hb2
  have hb3' : ((g.setCell p1 CellType.queuedTarget).setCell p2
      CellType.queuedTarget).isWithinWorldBounds p3 := by
    rw [(SameDims.setCell _ p2 _).bounds_iff, (SameDims.setCell g p1 _).bounds_iff]
    exact hb3
  have hbq2 : (((g.setCell p1 CellType.queuedTarget).setCell p2
      CellType.queuedTarget).setCell p3 CellType.queuedTarget).isWithinWorldBounds p2 := by
    rw [(SameDims.setCell _ p3 _).bounds_iff, (SameDims.setCell _ p2 _).bounds_iff,
      (SameDims.setCell g p1 _).bounds_iff]
    exact hb2
  have e1 : s1 = (g.setCell p1 CellType.queuedTarget, [p1]) :=
    handleGridClick_success g [] p1 hb1 hw1 hp1
  have e2 : s2 = ((g.setCell p1 CellType.queuedTarget).setCell p2 CellType.queuedTarget,
      [p1, p2]) := by
    show handleGridClick s1.1 s1.2 p2 = _
    rw [e1]
    exact handleGridClick_success _ [p1] p2 hb2' (keep g p1 p2 hw2 hp2).1
      (keep g p1 p2 hw2 hp2).2
  have e3 : s3 = (((g.setCell p1 CellType.queuedTarget).setCell p2
      CellType.queuedTarget).setCell p3 CellType.queuedTarget, [p1, p2, p3]) := by
    show handleGridClick s2.1 s2.2 p3 = _
    rw [e2]
    exact handleGridClick_success _ [p1, p2] p3 hb3'
      (keep _ p2 p3 (keep g p1 p3 hw3 hp3).1 (keep g p1 p3 hw3 hp3).2).1
      (keep _ p2 p3 (keep g p1 p3 hw3 hp3).1 (keep g p1 p3 hw3 hp3).2).2
  have hcell2 : (((g.setCell p1 CellType.queuedTarget).setCell p2
      CellType.queuedTarget).setCell p3 CellType.queuedTarget).cell p2 =
        CellType.queuedTarget := by
    rw [Grid.setCell_cell]
    split
    · rfl
    · rw [Grid.setCell_cell, if_pos ⟨hb2', rfl⟩]
  have hrem : removeTaskFromQueue (((g.setCell p1 CellType.queuedTarget).setCell p2
      CellType.queuedTarget).setCell p3 CellType.queuedTarget) [p1, p2, p3] 1 =
        ((((g.setCell p1 CellType.queuedTarget).setCell p2
          CellType.queuedTarget).setCell p3 CellType.queuedTarget).setCell p2
            CellType.empty, [p1, p3]) := by
    unfold removeTaskFromQueue
    rw [if_pos (by simp)]
    dsimp only
    rw [show [p1, p2, p3].getD ((1 : Int)).toNat (⟨0, 0⟩ : Position) = p2 from rfl]
    rw [Grid.getCell_of_inB hbq2, hcell2]
    rfl
  refine ⟨by rw [e3], by rw [e3]; exact hcell2, by rw [e3]; exact hrem, ?_, ?_⟩
  · rw [e3]
    dsimp only
    rw [hrem]
    dsimp only
    rw [Grid.setCell_cell, if_pos ⟨hbq2, rfl⟩]
  · intro i hi
    rw [e3]
    unfold removeTaskFromQueue
    rw [if_neg]
    intro hcond
    obtain ⟨hc1, hc2⟩ := hcond
    simp only [List.length_cons, List.length_nil] at hc2
    omega

/-- Witness for C9 on a concrete grid and three concrete destinations. -/
theorem queue_integrity_witness :
    let s1 := handleGridClick grid2x2 [] ⟨0, 0⟩
    let s2 := handleGridClick s1.1 s1.2 ⟨1, 0⟩
    let s3 := handleGridClick s2.1 s2.2 ⟨0, 1⟩
    s3.2 = [⟨0, 0⟩, ⟨1, 0⟩, ⟨0, 1⟩] ∧
      s3.1.cell ⟨1, 0⟩ = CellType.queuedTarget ∧
      removeTaskFromQueue s3.1 s3.2 1 =
        (s3.1.setCell ⟨1, 0⟩ CellType.empty, [⟨0, 0⟩, ⟨0, 1⟩]) ∧
      (removeTaskFromQueue s3.1 s3.2 1).1.cell ⟨1, 0⟩ = CellType.empty ∧
      ∀ i : Int, i < 0 ∨ 3 ≤ i → removeTaskFromQueue s3.1 s3.2 i = (s3.1, s3.2) :=
  queue_integrity grid2x2 ⟨0, 0⟩ ⟨1, 0⟩ ⟨0, 1⟩ (by decide) (by decide) (by decide)
    (by decide) (by decide) (by decide) (by decide) (by decide) (by decide)

/-- Witness for the amended C6 on a concrete grid. -/
theorem resetPath_spec_witness :
    ((grid1x1Queued.resetPath).cell ⟨0, 0⟩ =
      if grid1x1Queued.cell ⟨0, 0⟩ = CellType.path ∨
          grid1x1Queued.cell ⟨0, 0⟩ = CellType.visited ∨
          grid1x1Queued.cell ⟨0, 0⟩ = CellType.target
      then CellType.empty else grid1x1Queued.cell ⟨0, 0⟩) ∧
      (grid1x1Queued.resetPath).cell ⟨0, 0⟩ ≠ CellType.path ∧
        (grid1x1Queued.resetPath).cell ⟨0, 0⟩ ≠ CellType.visited ∧
        (grid1x1Queued.resetPath).cell ⟨0, 0⟩ ≠ CellType.target :=
  resetPath_spec grid1x1Queued ⟨0, 0⟩ (by decide)

/-! ### A* pathfinder: basic lemmas -/

theorem position_coords_eq {a b : Position} : (a.x = b.x ∧ a.y = b.y) ↔ a = b := by
  cases a
  cases b
  simp

theorem heuristic_self (a : Position) : heuristic a a = 0 := by
  unfold heuristic
  omega

theorem adj_iff_heuristic_one {a b : Position} : Adj a b ↔ heuristic a b = 1 := Iff.rfl

theorem heuristic_triangle (a b c : Position) :
    heuristic a c ≤ heuristic a b + heuristic b c := by
  unfold heuristic
  omega

theorem heuristic_le_walkN {g : Grid} {a b : Position} {n : Nat} (h : WalkN g a b n) :
    heuristic a b ≤ n := by
  induction h with
  | refl => rw [heuristic_self]
  | tail hw hstep ih =>
    rename_i b' c' n'
    have hone : heuristic b' c' = 1 := adj_iff_heuristic_one.mp hstep.1
    have htri := heuristic_triangle a b' c'
    omega

theorem Grid.getCell_eq_some_iff {g : Grid} {p : Position} {t : CellType} :
    g.getCell p = some t ↔ g.isWithinWorldBounds p ∧ g.cell p = t := by
  unfold Grid.getCell
  by_cases hb : g.isWithinWorldBounds p
  · rw [if_pos hb]
    simp [hb]
  · rw [if_neg hb]
    simp [hb]

theorem mem_getNeighbors_iff {g : Grid} {p q : Position} :
    q ∈ g.getNeighbors p ↔ Adj p q ∧ g.isWithinWorldBounds q ∧ g.cell q ≠ CellType.wall := by
  unfold Grid.getNeighbors
  dsimp only
  rw [List.mem_filter]
  constructor
  · rintro ⟨hmem, hdec⟩
    obtain ⟨hb, hw⟩ := of_decide_eq_true hdec
    refine ⟨?_, hb, hw⟩
    simp only [List.mem_map, List.mem_cons, List.not_mem_nil, or_false] at hmem
    obtain ⟨d, hd, hq⟩ := hmem
    subst hq
    rcases hd with hd | hd | hd | hd <;> subst hd <;> (unfold Adj; dsimp only; omega)
  · rintro ⟨hadj, hb, hw⟩
    refine ⟨?_, decide_eq_true ⟨hb, hw⟩⟩
    rw [List.mem_map]
    have hcases : (q.x = p.x ∧ q.y = p.y - 1) ∨ (q.x = p.x + 1 ∧ q.y = p.y) ∨
        (q.x = p.x ∧ q.y = p.y + 1) ∨ (q.x = p.x - 1 ∧ q.y = p.y) := by
      unfold Adj at hadj
      omega
    cases q with
    | mk qx qy =>
      rcases hcases with ⟨h1, h2⟩ | ⟨h1, h2⟩ | ⟨h1, h2⟩ | ⟨h1, h2⟩
      · exact ⟨⟨0, -1⟩, by simp, by simp only [Position.mk.injEq] at h1 h2 ⊢; omega⟩
      · exact ⟨⟨1, 0⟩, by simp, by simp only [Position.mk.injEq] at h1 h2 ⊢; omega⟩
      · exact ⟨⟨0, 1⟩, by simp, by simp only [Position.mk.injEq] at h1 h2 ⊢; omega⟩
      · exact ⟨⟨-1, 0⟩, by simp, by simp only [Position.mk.injEq] at h1 h2 ⊢; omega⟩

theorem markVisited_sameDims (g : Grid) (sp ep p : Position) :
    SameDims g (markVisited g sp ep p) := by
  unfold markVisited
  split
  · exact SameDims.refl g
  · split
    · split
      · exact SameDims.setCell g p _
      · exact SameDims.refl g
    · exact SameDims.refl g

/-- Each cell is either untouched by the marking, or it is the finalized
position — distinct from the start and the end, currently neither
`Player` nor `Target` — and becomes `Visited`. -/
theorem markVisited_cases (g : Grid) (sp ep p q : Position) :
    (markVisited g sp ep p).cell q = g.cell q ∨
      (q = p ∧ p ≠ sp ∧ p ≠ ep ∧
        g.cell p ≠ CellType.player ∧ g.cell p ≠ CellType.target ∧
        (markVisited g sp ep p).cell q = CellType.visited) := by
  unfold markVisited
  split
  · exact Or.inl rfl
  · rename_i hguard0
    split
    · rename_i t heq
      obtain ⟨hb, ht⟩ := Grid.getCell_eq_some_iff.mp heq
      split
      · rename_i hguard
        rw [Grid.setCell_cell]
        by_cases hq : q = p
        · rw [if_pos ⟨hb, hq⟩]
          refine Or.inr ⟨hq, ?_, ?_, by rw [ht]; exact hguard.1, by rw [ht]; exact hguard.2,
            rfl⟩
          · intro h
            exact hguard0 (Or.inl (position_coords_eq.mpr h))
          · intro h
            exact hguard0 (Or.inr (position_coords_eq.mpr h))
        · rw [if_neg (by tauto)]
          exact Or.inl rfl
      · exact Or.inl rfl
    · exact Or.inl rfl

/-! ### A* pathfinder: list helper lemmas -/

theorem map_eraseIdx' {α β : Type*} (f : α → β) :
    ∀ (l : List α) (i : Nat), (l.eraseIdx i).map f = (l.map f).eraseIdx i := by
  intro l
  induction l with
  | nil => intro i; rfl
  | cons a l ih =>
    intro i
    cases i with
    | zero => rfl
    | succ i =>
      simp only [List.eraseIdx, List.map_cons]
      rw [ih i]

theorem nodup_getElem_not_mem_eraseIdx {α : Type*} :
    ∀ (l : List α) (i : Nat), l.Nodup → ∀ a : α, l[i]? = some a → a ∉ l.eraseIdx i := by
  intro l
  induction l with
  | nil => intro i _ a ha; simp at ha
  | cons b l ih =>
    intro i hno a ha
    cases i with
    | zero =>
      simp only [List.getElem?_cons_zero, Option.some.injEq] at ha
      subst ha
      simp only [List.eraseIdx]
      exact (List.nodup_cons.mp hno).1
    | succ i =>
      simp only [List.getElem?_cons_succ] at ha
      simp only [List.eraseIdx]
      intro hmem
      rcases List.mem_cons.mp hmem with hab | hmem2
      · subst hab
        obtain ⟨hi, hv⟩ := List.getElem?_eq_some_iff.mp ha
        exact (List.nodup_cons.mp hno).1 (hv ▸ List.getElem_mem hi)
      · exact ih i (List.nodup_cons.mp hno).2 a ha hmem2

theorem mem_eraseIdx_of_ne {α : Type*} :
    ∀ (l : List α) (i : Nat) (a b : α), a ∈ l → l[i]? = some b → a ≠ b → a ∈ l.eraseIdx i := by
  intro l
  induction l with
  | nil => intro i a b ha; simp at ha
  | cons c l ih =>
    intro i a b ha hb hne
    cases i with
    | zero =>
      simp only [List.getElem?_cons_zero, Option.some.injEq] at hb
      subst hb
      simp only [List.eraseIdx]
      rcases List.mem_cons.mp ha with h | h
      · exact absurd h hne
      · exact h
    | succ i =>
      simp only [List.getElem?_cons_succ] at hb
      simp only [List.eraseIdx]
      rcases List.mem_cons.mp ha with h | h
      · exact h ▸ List.mem_cons_self c _
      · exact List.mem_cons_of_mem c (ih i a b h hb hne)

theorem nodup_position_eq {l : List CellNode} (hno : (l.map CellNode.position).Nodup)
    {a b : CellNode} (ha : a ∈ l) (hb : b ∈ l) (hpos : a.position = b.position) : a = b := by
  induction l with
  | nil => simp at ha
  | cons c l ih =>
    rw [List.map_cons, List.nodup_cons] at hno
    rcases List.mem_cons.mp ha with ha' | ha' <;> rcases List.mem_cons.mp hb with hb' | hb'
    · rw [ha', hb']
    · exfalso
      subst ha'
      exact hno.1 (hpos ▸ List.mem_map_of_mem CellNode.position hb')
    · exfalso
      subst hb'
      exact hno.1 (hpos.symm ▸ List.mem_map_of_mem CellNode.position ha')
    · exact ih hno.2 ha' hb'

/-! ### A* pathfinder: findMinIndex and updateFirst lemmas -/

theorem findMinAux (l : List CellNode) :
    ∀ (idxs : List Nat) (ci : Nat), ci < l.length → (∀ j ∈ idxs, j < l.length) →
      ∃ (a : CellNode),
        l[idxs.foldl (fun ci i =>
          match l[i]?, l[ci]? with
          | some ni, some nc => if ni.f < nc.f then i else ci
          | _, _ => ci) ci]? = some a ∧
        (∀ b, l[ci]? = some b → a.f ≤ b.f) ∧
        (∀ j ∈ idxs, ∀ b, l[j]? = some b → a.f ≤ b.f) := by
  intro idxs
  induction idxs with
  | nil =>
    intro ci hci _
    simp only [List.foldl_nil]
    refine ⟨l[ci], by rw [List.getElem?_eq_getElem hci], ?_, by simp⟩
    intro b hb
    rw [List.getElem?_eq_getElem hci, Option.some.injEq] at hb
    rw [hb]
  | cons j rest ih =>
    intro ci hci hall
    have hj : j < l.length := hall j (List.mem_cons_self j rest)
    simp only [List.foldl_cons]
    rw [List.getElem?_eq_getElem hj, List.getElem?_eq_getElem hci]
    dsimp only
    by_cases hlt : l[j].f < l[ci].f
    · rw [if_pos hlt]
      obtain ⟨a, hsome, hle, hrest⟩ := ih j hj (fun i hi => hall i (List.mem_cons_of_mem j hi))
      have haj : a.f ≤ l[j].f := hle l[j] (by rw [List.getElem?_eq_getElem hj])
      refine ⟨a, hsome, ?_, ?_⟩
      · intro b hb
        rw [Option.some.injEq] at hb
        subst hb
        omega
      · intro i hi b hb
        rcases List.mem_cons.mp hi with h | h
        · subst h
          rw [List.getElem?_eq_getElem hj, Option.some.injEq] at hb
          subst hb
          exact haj
        · exact hrest i h b hb
    · rw [if_neg hlt]
      obtain ⟨a, hsome, hle, hrest⟩ := ih ci hci (fun i hi => hall i (List.mem_cons_of_mem j hi))
      have hac : a.f ≤ l[ci].f := hle l[ci] (by rw [List.getElem?_eq_getElem hci])
      refine ⟨a, hsome, ?_, ?_⟩
      · intro b hb
        rw [Option.some.injEq] at hb
        subst hb
        exact hac
      · intro i hi b hb
        rcases List.mem_cons.mp hi with h | h
        · subst h
          rw [List.getElem?_eq_getElem hj, Option.some.injEq] at hb
          subst hb
          omega
        · exact hrest i h b hb

/-- The index scan returns (the index of) a node of minimal `f`. -/
theorem findMinIndex_get (l : List CellNode) (hne : l ≠ []) :
    ∃ cur, l[findMinIndex l]? = some cur ∧ ∀ n ∈ l, cur.f ≤ n.f := by
  unfold findMinIndex
  have hpos : 0 < l.length := List.length_pos.mpr hne
  obtain ⟨a, hsome, _, hmin⟩ :=
    findMinAux l (List.range l.length) 0 hpos (fun j hj => List.mem_range.mp hj)
  refine ⟨a, hsome, fun n hn => ?_⟩
  obtain ⟨i, hi, hv⟩ := List.mem_iff_getElem.mp hn
  exact hmin i (List.mem_range.mpr hi) n (by rw [List.getElem?_eq_getElem hi, hv])

theorem updateFirst_map_position (q : Position) (f' g' : Nat) (par : CellNode) :
    ∀ (l : List CellNode),
      (updateFirst l q f' g' par).map CellNode.position = l.map CellNode.position := by
  intro l
  induction l with
  | nil => rfl
  | cons n rest ih =>
    unfold updateFirst
    split
    · rename_i h
      simp only [List.map_cons]
      rw [show (CellNode.mk q f' g' n.h (some par)).position = q from rfl, h]
    · simp only [List.map_cons]
      rw [ih]

theorem mem_updateFirst (q : Position) (f' g' : Nat) (par : CellNode) :
    ∀ (l : List CellNode), ∀ n' ∈ updateFirst l q f' g' par,
      n' ∈ l ∨ (n'.position = q ∧ n'.f = f' ∧ n'.g = g' ∧ n'.parent = some par ∧
        ∃ old ∈ l, old.position = q ∧ n'.h = old.h) := by
  intro l
  induction l with
  | nil => intro n' h; simp [updateFirst] at h
  | cons n rest ih =>
    intro n' hmem
    unfold updateFirst at hmem
    split at hmem
    · rename_i h
      rcases List.mem_cons.mp hmem with h' | h'
      · subst h'
        exact Or.inr ⟨rfl, rfl, rfl, rfl, n, List.mem_cons_self n rest, h, rfl⟩
      · exact Or.inl (List.mem_cons_of_mem n h')
    · rcases List.mem_cons.mp hmem with h' | h'
      · exact Or.inl (h' ▸ List.mem_cons_self n rest)
      · rcases ih n' h' with h'' | ⟨h1, h2, h3, h4, old, ho, hp, hh⟩
        · exact Or.inl (List.mem_cons_of_mem n h'')
        · exact Or.inr ⟨h1, h2, h3, h4, old, List.mem_cons_of_mem n ho, hp, hh⟩

theorem mem_updateFirst_of_ne (q : Position) (f' g' : Nat) (par : CellNode) :
    ∀ (l : List CellNode) (n : CellNode), n ∈ l → n.position ≠ q →
      n ∈ updateFirst l q f' g' par := by
  intro l
  induction l with
  | nil => intro n h; simp at h
  | cons m rest ih =>
    intro n hn hne
    unfold updateFirst
    split
    · rcases List.mem_cons.mp hn with h | h
      · exact absurd (h ▸ (by assumption : m.position = q)) (h ▸ hne)
      · exact List.mem_cons_of_mem _ h
    · rcases List.mem_cons.mp hn with h | h
      · exact h ▸ List.mem_cons_self m _
      · exact List.mem_cons_of_mem _ (ih n h hne)

theorem updateFirst_exists_at (q : Position) (f' g' : Nat) (par : CellNode) :
    ∀ (l : List CellNode), (∃ n ∈ l, n.position = q) →
      ∃ n' ∈ updateFirst l q f' g' par, n'.position = q ∧ n'.g = g' ∧ n'.f = f' := by
  intro l
  induction l with
  | nil => intro h; simp at h
  | cons m rest ih =>
    intro hex
    unfold updateFirst
    split
    · exact ⟨CellNode.mk q f' g' m.h (some par), List.mem_cons_self _ _, rfl, rfl, rfl⟩
    · rename_i hm
      obtain ⟨n, hn, hq⟩ := hex
      rcases List.mem_cons.mp hn with h | h
      · exact absurd (h ▸ hq) hm
      · obtain ⟨n', hn', hp⟩ := ih ⟨n, h, hq⟩
        exact ⟨n', List.mem_cons_of_mem _ hn', hp⟩

/-! ### A* pathfinder: node validity and path reconstruction -/

theorem goodNode_walkN (g0 : Grid) (s : Position) :
    ∀ (n : CellNode), GoodNode g0 s n → WalkN g0 s n.position n.g
  | .mk p f gg h none, hg => by
    obtain ⟨hp, hgg⟩ := hg
    show WalkN g0 s p gg
    rw [hp, hgg]
    exact WalkN.refl s
  | .mk p f gg h (some par), hg => by
    obtain ⟨hpar, hstep, hgg⟩ := hg
    show WalkN g0 s p gg
    subst hgg
    exact WalkN.tail (goodNode_walkN g0 s par hpar) hstep

theorem reconstructPath_spec (g0 : Grid) (s : Position) :
    ∀ (n : CellNode), GoodNode g0 s n →
      (reconstructPath n).length = n.g + 1 ∧ (reconstructPath n).head? = some s ∧
        (reconstructPath n).getLast? = some n.position ∧ List.Chain' Adj (reconstructPath n)
  | .mk p f gg h none, hg => by
    obtain ⟨hp, hgg⟩ := hg
    subst hp
    subst hgg
    exact ⟨rfl, rfl, rfl, List.chain'_singleton _⟩
  | .mk p f gg h (some par), hg => by
    obtain ⟨hpar, hstep, hgg⟩ := hg
    obtain ⟨ihl, ihh, ihlast, ihch⟩ := reconstructPath_spec g0 s par hpar
    have hne : reconstructPath par ≠ [] := by
      intro h0
      rw [h0] at ihl
      simp at ihl
    show (reconstructPath par ++ [p]).length = gg + 1 ∧
      (reconstructPath par ++ [p]).head? = some s ∧
      (reconstructPath par ++ [p]).getLast? = some p ∧
      List.Chain' Adj (reconstructPath par ++ [p])
    refine ⟨?_, ?_, ?_, ?_⟩
    · rw [List.length_append, ihl]
      simp
      omega
    · rw [List.head?_append_of_ne_nil _ hne]
      exact ihh
    · exact List.getLast?_concat _
    · rw [List.chain'_append]
      refine ⟨ihch, List.chain'_singleton _, fun x hx y hy => ?_⟩
      rw [ihlast] at hx
      simp only [Option.mem_def, Option.some.injEq] at hx
      simp only [List.head?_cons, Option.mem_def, Option.some.injEq] at hy
      subst hx
      subst hy
      exact hstep.1

/-! ### A* pathfinder: the frontier chase -/

/-- If the goal-side endpoint of any walk from the start is not yet
closed, the open list holds a node whose stored f underestimates the
walk's length plus the endpoint's heuristic.  This uses the invariant
fields of `AInv` for an arbitrary state. -/
theorem frontier_chase {g0 : Grid} {s t : Position} {openList : List CellNode}
    {closed : List Position}
    (sP : s ∈ closed ∨ ∃ n ∈ openList, n.position = s ∧ n.g = 0)
    (fC : ∀ n ∈ openList, n.h = heuristic n.position t ∧
      (n.f = n.g + n.h ∨ (n.position = s ∧ n.g = 0 ∧ n.f = 0)))
    (cF : ∀ p ∈ closed, ∀ q, WalkStep g0 p q → q ∈ closed ∨
      ∃ n ∈ openList, n.position = q ∧ ∀ m, WalkN g0 s p m → n.g ≤ m + 1) :
    ∀ {z : Position} {m : Nat}, WalkN g0 s z m → z ∉ closed →
      ∃ n ∈ openList, n.f ≤ m + heuristic z t := by
  intro z m hwalk
  induction hwalk with
  | refl =>
    intro hz
    rcases sP with h | ⟨n, hn, hpos, hg⟩
    · exact absurd h hz
    · refine ⟨n, hn, ?_⟩
      obtain ⟨hh, hf⟩ := fC n hn
      rcases hf with hf | ⟨_, _, hf⟩
      · rw [hf, hh, hpos, hg]
      · rw [hf]
        omega
  | tail hw hstep ih =>
    rename_i b z' m'
    intro hz
    by_cases hb : b ∈ closed
    · rcases cF b hb z' hstep with h | ⟨n, hn, hpos, hbound⟩
      · exact absurd h hz
      · refine ⟨n, hn, ?_⟩
        have hgb := hbound m' hw
        obtain ⟨hh, hf⟩ := fC n hn
        rcases hf with hf | ⟨_, _, hf⟩
        · rw [hf, hh, hpos]
          omega
        · rw [hf]
          omega
    · obtain ⟨n, hn, hf⟩ := ih hb
      refine ⟨n, hn, ?_⟩
      have hone : heuristic b z' = 1 := adj_iff_heuristic_one.mp hstep.1
      have htri := heuristic_triangle b z' t
      omega

/-! ### A* pathfinder: the neighbour loop -/

theorem GoodNode.ofParent {g0 : Grid} {s : Position} {par n : CellNode}
    (hpar : GoodNode g0 s par) (hp : n.parent = some par)
    (hstep : WalkStep g0 par.position n.position) (hg : n.g = par.g + 1) :
    GoodNode g0 s n := by
  cases n with
  | mk p f gg h pr =>
    cases pr with
    | none => exact absurd hp (by simp [CellNode.parent])
    | some pr' =>
      have : pr' = par := by simpa [CellNode.parent] using hp
      subst this
      exact ⟨hpar, hstep, hg⟩

theorem processNeighbors_cons (cur : CellNode) (t : Position) (closed : List Position)
    (q : Position) (rest : List Position) (ol : List CellNode) :
    processNeighbors cur t closed (q :: rest) ol =
      processNeighbors cur t closed rest (pnStep cur t closed ol q) := rfl

/-- One neighbour step preserves the open-list invariant, never worsens a
recorded g value at any open position, and either skips a closed
neighbour or leaves an open node at the neighbour with g at most
`cur.g + 1`. -/
theorem pnStep_spec {g0 : Grid} {s t : Position} {closed : List Position}
    {cur : CellNode} {ol : List CellNode} {q : Position}
    (hcur : GoodNode g0 s cur) (hq : WalkStep g0 cur.position q)
    (hI : OpenInv g0 s t closed ol) :
    OpenInv g0 s t closed (pnStep cur t closed ol q) ∧
      (∀ p b, (∃ n ∈ ol, n.position = p ∧ n.g ≤ b) →
        ∃ n ∈ pnStep cur t closed ol q, n.position = p ∧ n.g ≤ b) ∧
      (q ∈ closed ∨ ∃ n ∈ pnStep cur t closed ol q, n.position = q ∧ n.g ≤ cur.g + 1) := by
  by_cases hqc : q ∈ closed
  · have hres : pnStep cur t closed ol q = ol := by
      unfold pnStep
      rw [if_pos hqc]
    rw [hres]
    exact ⟨hI, fun p b h => h, Or.inl hqc⟩
  · cases hfind : ol.find? fun n => decide (n.position = q) with
    | some openNode =>
      have hmem : openNode ∈ ol := List.mem_of_find?_eq_some hfind
      have hpos : openNode.position = q := by
        have h := List.find?_some hfind
        simpa using h
      by_cases hg : openNode.g ≤ cur.g + 1
      · have hres : pnStep cur t closed ol q = ol := by
          unfold pnStep
          rw [if_neg hqc]
          simp only [hfind]
          rw [if_pos hg]
        rw [hres]
        exact ⟨hI, fun p b h => h, Or.inr ⟨openNode, hmem, hpos, hg⟩⟩
      · have hres : pnStep cur t closed ol q =
            updateFirst ol q (cur.g + 1 + heuristic q t) (cur.g + 1) cur := by
          unfold pnStep
          rw [if_neg hqc]
          simp only [hfind]
          rw [if_neg hg]
        rw [hres]
        have hup := mem_updateFirst q (cur.g + 1 + heuristic q t) (cur.g + 1) cur ol
        refine ⟨⟨?_, ?_, ?_, ?_, ?_⟩, ?_, ?_⟩
        · intro n' hn'
          rcases hup n' hn' with h | ⟨hp, hf, hg', hpar, old, hold, holdp, hh⟩
          · exact hI.good n' h
          · exact GoodNode.ofParent hcur hpar (hp ▸ hq) hg'
        · intro n' hn'
          rcases hup n' hn' with h | ⟨hp, _, _, _, _⟩
          · exact hI.pos n' h
          · exact Or.inr ⟨hp ▸ hq.2.1, hp ▸ hq.2.2⟩
        · intro n' hn'
          rcases hup n' hn' with h | ⟨hp, hf, hg', hpar, old, hold, holdp, hh⟩
          · exact hI.fchar n' h
          · have hoh : old.h = heuristic q t := by
              have := (hI.fchar old hold).1
              rw [holdp] at this
              exact this
            refine ⟨by rw [hh, hoh, hp], Or.inl ?_⟩
            rw [hf, hg', hh, hoh]
        · rw [updateFirst_map_position]
          exact hI.nodup
        · intro n' hn'
          rcases hup n' hn' with h | ⟨hp, _, _, _, _⟩
          · exact hI.disj n' h
          · rw [hp]
            exact hqc
        · intro p b ⟨n, hn, hnp, hnb⟩
          by_cases hpq : p = q
          · subst hpq
            have hno : n = openNode :=
              nodup_position_eq hI.nodup hn hmem (hnp.trans hpos.symm)
            have hb' : cur.g + 1 ≤ b := by
              rw [hno] at hnb
              omega
            obtain ⟨n', hn', hp', hg', _⟩ :=
              updateFirst_exists_at p (cur.g + 1 + heuristic p t) (cur.g + 1) cur ol
                ⟨n, hn, hnp⟩
            exact ⟨n', hn', hp', by omega⟩
          · exact ⟨n, mem_updateFirst_of_ne q _ _ cur ol n hn (hnp ▸ hpq), hnp, hnb⟩
        · obtain ⟨n', hn', hp', hg', _⟩ :=
            updateFirst_exists_at q (cur.g + 1 + heuristic q t) (cur.g + 1) cur ol
              ⟨openNode, hmem, hpos⟩
          exact Or.inr ⟨n', hn', hp', le_of_eq hg'⟩
    | none =>
      have hres : pnStep cur t closed ol q =
          ol ++ [CellNode.mk q (cur.g + 1 + heuristic q t) (cur.g + 1)
            (heuristic q t) (some cur)] := by
        unfold pnStep
        rw [if_neg hqc]
        simp only [hfind]
      rw [hres]
      have hnotin : ∀ n ∈ ol, n.position ≠ q := by
        intro n hn
        have := List.find?_eq_none.mp hfind n hn
        simpa using this
      refine ⟨⟨?_, ?_, ?_, ?_, ?_⟩, ?_, ?_⟩
      · intro n' hn'
        rcases List.mem_append.mp hn' with h | h
        · exact hI.good n' h
        · rw [List.mem_singleton.mp h]
          exact ⟨hcur, hq, rfl⟩
      · intro n' hn'
        rcases List.mem_append.mp hn' with h | h
        · exact hI.pos n' h
        · rw [List.mem_singleton.mp h]
          exact Or.inr ⟨hq.2.1, hq.2.2⟩
      · intro n' hn'
        rcases List.mem_append.mp hn' with h | h
        · exact hI.fchar n' h
        · rw [List.mem_singleton.mp h]
          exact ⟨rfl, Or.inl rfl⟩
      · rw [List.map_append]
        rw [List.nodup_append]
        refine ⟨hI.nodup, List.nodup_singleton _, ?_⟩
        intro a ha hb
        simp only [List.map_cons, List.map_nil, List.mem_singleton] at hb
        obtain ⟨n, hn, hna⟩ := List.mem_map.mp ha
        exact hnotin n hn (hna.trans hb)
      · intro n' hn'
        rcases List.mem_append.mp hn' with h | h
        · exact hI.disj n' h
        · rw [List.mem_singleton.mp h]
          exact hqc
      · intro p b ⟨n, hn, hnp, hnb⟩
        exact ⟨n, List.mem_append_left _ hn, hnp, hnb⟩
      · refine Or.inr ⟨CellNode.mk q (cur.g + 1 + heuristic q t) (cur.g + 1)
          (heuristic q t) (some cur), List.mem_append_right _ (List.mem_singleton_self _),
          rfl, le_refl _⟩

/-- The whole neighbour loop preserves the open-list invariant, never
worsens a recorded g value, and covers every neighbour: afterwards each
neighbour is closed or sits in the open list with g at most `cur.g + 1`. -/
theorem processNeighbors_spec {g0 : Grid} {s t : Position} {closed : List Position}
    {cur : CellNode} (hcur : GoodNode g0 s cur) :
    ∀ (neighbors : List Position) (ol : List CellNode),
      (∀ q ∈ neighbors, WalkStep g0 cur.position q) →
      OpenInv g0 s t closed ol →
      OpenInv g0 s t closed (processNeighbors cur t closed neighbors ol) ∧
      (∀ p b, (∃ n ∈ ol, n.position = p ∧ n.g ≤ b) →
        ∃ n ∈ processNeighbors cur t closed neighbors ol, n.position = p ∧ n.g ≤ b) ∧
      (∀ q ∈ neighbors, q ∈ closed ∨
        ∃ n ∈ processNeighbors cur t closed neighbors ol, n.position = q ∧ n.g ≤ cur.g + 1) := by
  intro neighbors
  induction neighbors with
  | nil =>
    intro ol _ hI
    exact ⟨hI, fun p b h => h, by simp⟩
  | cons q rest ih =>
    intro ol hnb hI
    rw [processNeighbors_cons]
    obtain ⟨hI', hmono1, hestab⟩ := pnStep_spec hcur (hnb q (List.mem_cons_self q rest)) hI
    obtain ⟨hI'', hmono2, hcov⟩ :=
      ih (pnStep cur t closed ol q) (fun q' h => hnb q' (List.mem_cons_of_mem q h)) hI'
    refine ⟨hI'', fun p b h => hmono2 p b (hmono1 p b h), ?_⟩
    intro q' hq'
    rcases List.mem_cons.mp hq' with h | h
    · subst h
      rcases hestab with hc | ⟨n, hn, hp, hb⟩
      · exact Or.inl hc
      · rcases hmono2 q' (cur.g + 1) ⟨n, hn, hp, hb⟩ with ⟨n', hn', hp', hb'⟩
        exact Or.inr ⟨n', hn', hp', hb'⟩
    · exact hcov q' h

/-! ### A* pathfinder: pop optimality and the step preservation lemma -/

theorem mem_boundedPositions {g : Grid} {p : Position} :
    p ∈ boundedPositions g ↔ g.isWithinWorldBounds p := by
  unfold boundedPositions Grid.isWithinWorldBounds
  constructor
  · intro h
    obtain ⟨xy, hxy, hp⟩ := Finset.mem_image.mp h
    obtain ⟨hx, hy⟩ := Finset.mem_product.mp hxy
    rw [Finset.mem_Ico] at hx hy
    subst hp
    exact ⟨hx.1, hx.2, hy.1, hy.2⟩
  · intro ⟨h1, h2, h3, h4⟩
    refine Finset.mem_image.mpr ⟨(p.x, p.y), ?_, rfl⟩
    rw [Finset.mem_product, Finset.mem_Ico, Finset.mem_Ico]
    exact ⟨⟨h1, h2⟩, ⟨h3, h4⟩⟩

theorem boundedPositions_card (g : Grid) :
    (boundedPositions g).card ≤ g.worldWidth * g.worldHeight := by
  unfold boundedPositions
  refine le_trans Finset.card_image_le ?_
  rw [Finset.card_product, Int.card_Ico, Int.card_Ico]
  have h1 : ((g.worldWidth : Int) - 0).toNat = g.worldWidth := by omega
  have h2 : ((g.worldHeight : Int) - 0).toNat = g.worldHeight := by omega
  rw [h1, h2]

/-- The closed list never exceeds the number of in-bounds positions
plus one (for a possibly out-of-bounds start). -/
theorem closed_length_le {g0 : Grid} {s t : Position} {ol : List CellNode}
    {closed : List Position} {grid : Grid} (hI : AInv g0 s t ol closed grid) :
    closed.length ≤ g0.worldWidth * g0.worldHeight + 1 := by
  have hsub : ∀ p ∈ closed, p ∈ insert s (boundedPositions g0) := by
    intro p hp
    rcases hI.closedPos p hp with h | ⟨hb, _⟩
    · rw [h]
      exact Finset.mem_insert_self s _
    · exact Finset.mem_insert_of_mem (mem_boundedPositions.mpr hb)
  have hcard := boundedPositions_card g0
  calc closed.length = closed.toFinset.card := (List.toFinset_card_of_nodup hI.closedNodup).symm
    _ ≤ (insert s (boundedPositions g0)).card :=
        Finset.card_le_card fun x hx => hsub x (List.mem_toFinset.mp hx)
    _ ≤ (boundedPositions g0).card + 1 := Finset.card_insert_le s _
    _ ≤ g0.worldWidth * g0.worldHeight + 1 := by omega

/-- When the loop pops the open node of minimal f, that node's recorded g
is at most the length of any walk from the start to its position (the
popped node is settled optimally: Manhattan distance is admissible and
consistent on the unit-cost 4-connected graph). -/
theorem pop_optimal {g0 : Grid} {s t : Position} {ol : List CellNode}
    {closed : List Position} {grid : Grid} (hI : AInv g0 s t ol closed grid)
    {cur : CellNode} (hcur : ol[findMinIndex ol]? = some cur)
    {m : Nat} (hw : WalkN g0 s cur.position m) : cur.g ≤ m := by
  have hne : ol ≠ [] := by
    intro h
    subst h
    simp at hcur
  obtain ⟨cur', hsome, hmin⟩ := findMinIndex_get ol hne
  rw [hcur, Option.some.injEq] at hsome
  subst hsome
  have hmemcur : cur ∈ ol := by
    obtain ⟨hi, hv⟩ := List.getElem?_eq_some_iff.mp hcur
    exact hv ▸ List.getElem_mem hi
  have hnotc : cur.position ∉ closed := hI.disj cur hmemcur
  obtain ⟨n, hn, hf⟩ := frontier_chase hI.sPresent hI.fChar hI.closedFrontier hw hnotc
  have hfn := hmin n hn
  obtain ⟨hh, hfc⟩ := hI.fChar cur hmemcur
  rcases hfc with hfc | ⟨_, hg0, _⟩
  · rw [hfc, hh] at hfn
    omega
  · rw [hg0]
    omega

/-- One full iteration of the A* loop — pop the minimal-f node, close it,
mark it visited, process its neighbours — preserves the loop invariant. -/
theorem aStarStep {g0 grid : Grid} {s t : Position} {ol : List CellNode}
    {closed : List Position} (hI : AInv g0 s t ol closed grid)
    {cur : CellNode} (hcur : ol[findMinIndex ol]? = some cur)
    (hnt : cur.position ≠ t) :
    AInv g0 s t
      (processNeighbors cur t (closed ++ [cur.position])
        ((markVisited grid s t cur.position).getNeighbors cur.position)
        (ol.eraseIdx (findMinIndex ol)))
      (closed ++ [cur.position])
      (markVisited grid s t cur.position) := by
  have hmemcur : cur ∈ ol := by
    obtain ⟨hi, hv⟩ := List.getElem?_eq_some_iff.mp hcur
    exact hv ▸ List.getElem_mem hi
  have hGood : GoodNode g0 s cur := hI.goodOpen cur hmemcur
  have hposcur := hI.posOpen cur hmemcur
  have hdims' : SameDims g0 (markVisited grid s t cur.position) :=
    hI.dims.trans (markVisited_sameDims grid s t cur.position)
  have hwallEq' : ∀ p, (markVisited grid s t cur.position).cell p = CellType.wall ↔
      g0.cell p = CellType.wall := by
    intro p
    rcases markVisited_cases grid s t cur.position p with h | ⟨hp, hns, _, _, _, hv⟩
    · rw [h]
      exact hI.wallEq p
    · rw [hv]
      constructor
      · intro h
        exact absurd h (by simp)
      · intro h
        exfalso
        subst hp
        rcases hposcur with hs | ⟨_, hnw⟩
        · exact hns hs
        · exact hnw h
  have hframeVT' : ∀ p, g0.cell p = CellType.player ∨ g0.cell p = CellType.target →
      (markVisited grid s t cur.position).cell p = g0.cell p := by
    intro p hp0
    rcases markVisited_cases grid s t cur.position p with h | ⟨hq, _, _, hnp, hnt3, _⟩
    · rw [h]
      exact hI.frameVT p hp0
    · exfalso
      rw [hq] at hp0
      have heq := hI.frameVT cur.position hp0
      rcases hp0 with h0 | h0
      · exact hnp (heq.trans h0)
      · exact hnt3 (heq.trans h0)
  have hnb : ∀ q ∈ (markVisited grid s t cur.position).getNeighbors cur.position,
      WalkStep g0 cur.position q := by
    intro q hqmem
    obtain ⟨hadj, hb, hw⟩ := mem_getNeighbors_iff.mp hqmem
    exact ⟨hadj, (hdims'.bounds_iff q).mp hb, fun hc => hw ((hwallEq' q).mpr hc)⟩
  have hnb' : ∀ q, WalkStep g0 cur.position q →
      q ∈ (markVisited grid s t cur.position).getNeighbors cur.position := by
    intro q hstep
    exact mem_getNeighbors_iff.mpr ⟨hstep.1, (hdims'.bounds_iff q).mpr hstep.2.1,
      fun hc => hstep.2.2 ((hwallEq' q).mp hc)⟩
  have hposne : ∀ n ∈ ol.eraseIdx (findMinIndex ol), n.position ≠ cur.position := by
    intro n hn
    have hmapped : (ol.map CellNode.position)[findMinIndex ol]? = some cur.position := by
      rw [List.getElem?_map, hcur]
      rfl
    have hnotmem := nodup_getElem_not_mem_eraseIdx (ol.map CellNode.position)
      (findMinIndex ol) hI.nodupPos cur.position hmapped
    rw [← map_eraseIdx'] at hnotmem
    intro he
    exact hnotmem (he ▸ List.mem_map_of_mem CellNode.position hn)
  have hOI : OpenInv g0 s t (closed ++ [cur.position]) (ol.eraseIdx (findMinIndex ol)) := by
    refine ⟨?_, ?_, ?_, ?_, ?_⟩
    · intro n hn
      exact hI.goodOpen n (List.mem_of_mem_eraseIdx hn)
    · intro n hn
      exact hI.posOpen n (List.mem_of_mem_eraseIdx hn)
    · intro n hn
      exact hI.fChar n (List.mem_of_mem_eraseIdx hn)
    · rw [map_eraseIdx']
      exact hI.nodupPos.eraseIdx _
    · intro n hn hmem
      rcases List.mem_append.mp hmem with h | h
      · exact hI.disj n (List.mem_of_mem_eraseIdx hn) h
      · exact hposne n hn (List.mem_singleton.mp h)
  obtain ⟨hOI', hmono, hcov⟩ := processNeighbors_spec hGood
    ((markVisited grid s t cur.position).getNeighbors cur.position)
    (ol.eraseIdx (findMinIndex ol)) hnb hOI
  refine ⟨hdims', hwallEq', hframeVT', hOI'.good, hOI'.pos, hOI'.fchar, hOI'.nodup,
    hOI'.disj, ?_, ?_, ?_, ?_, ?_⟩
  · refine List.nodup_append.mpr ⟨hI.closedNodup, List.nodup_singleton _, ?_⟩
    intro a ha hb
    rw [List.mem_singleton] at hb
    exact hI.disj cur hmemcur (hb ▸ ha)
  · intro p hp
    rcases List.mem_append.mp hp with h | h
    · exact hI.closedPos p h
    · rw [List.mem_singleton.mp h]
      exact hposcur
  · rcases hI.sPresent with h | ⟨n, hn, hnp, hng⟩
    · exact Or.inl (List.mem_append_left _ h)
    · by_cases hcs : cur.position = s
      · refine Or.inl (List.mem_append_right _ ?_)
        rw [← hcs]
        exact List.mem_singleton_self _
      · have hne : n ≠ cur := by
          intro he
          exact hcs (by rw [← he, hnp])
        have hnmem : n ∈ ol.eraseIdx (findMinIndex ol) :=
          mem_eraseIdx_of_ne ol (findMinIndex ol) n cur hn hcur hne
        obtain ⟨n', hn', hp', hg'⟩ := hmono s 0 ⟨n, hnmem, hnp, le_of_eq hng⟩
        exact Or.inr ⟨n', hn', hp', Nat.le_zero.mp hg'⟩
  · intro p hp q hstep
    rcases List.mem_append.mp hp with hpc | hpcur
    · rcases hI.closedFrontier p hpc q hstep with hqc | ⟨n, hn, hnp, hbound⟩
      · exact Or.inl (List.mem_append_left _ hqc)
      · by_cases hqcur : q = cur.position
        · refine Or.inl (List.mem_append_right _ ?_)
          rw [hqcur]
          exact List.mem_singleton_self _
        · have hne : n ≠ cur := by
            intro he
            exact hqcur (by rw [← hnp, he])
          have hnmem : n ∈ ol.eraseIdx (findMinIndex ol) :=
            mem_eraseIdx_of_ne ol (findMinIndex ol) n cur hn hcur hne
          obtain ⟨n', hn', hp', hg'⟩ := hmono q n.g ⟨n, hnmem, hnp, le_refl _⟩
          exact Or.inr ⟨n', hn', hp', fun m hm => le_trans hg' (hbound m hm)⟩
    · rw [List.mem_singleton] at hpcur
      subst hpcur
      rcases hcov q (hnb' q hstep) with hqc | ⟨n, hn, hnp, hng⟩
      · exact Or.inl hqc
      · refine Or.inr ⟨n, hn, hnp, ?_⟩
        intro m hm
        have := pop_optimal hI hcur hm
        omega
  · intro hmem
    rcases List.mem_append.mp hmem with h | h
    · exact hI.tNotClosed h
    · exact hnt (List.mem_singleton.mp h).symm

/-! ### A* pathfinder: the main loop -/

/-- The invariant holds at the loop entry: a single open node for the
start (with stored f = 0, as in the source), no closed positions, and the
untouched input grid. -/
theorem aInv_init (g : Grid) (s t : Position) :
    AInv g s t [CellNode.mk s 0 0 (heuristic s t) none] [] g := by
  refine ⟨?_, ?_, ?_, ?_, ?_, ?_, ?_, ?_, ?_, ?_, ?_, ?_, ?_⟩
  · exact SameDims.refl g
  · intro p
    exact Iff.rfl
  · intro p _
    rfl
  · intro n hn
    rw [List.mem_singleton.mp hn]
    exact ⟨rfl, rfl⟩
  · intro n hn
    rw [List.mem_singleton.mp hn]
    exact Or.inl rfl
  · intro n hn
    rw [List.mem_singleton.mp hn]
    exact ⟨rfl, Or.inr ⟨rfl, rfl, rfl⟩⟩
  · simp
  · intro n _
    simp
  · exact List.nodup_nil
  · intro p hp
    simp at hp
  · exact Or.inr ⟨_, List.mem_singleton_self _, rfl, rfl⟩
  · intro p hp
    simp at hp
  · simp

/-- Unfolding equation of the loop: empty open list. -/
theorem aStarLoop_isEmpty_eq (s t : Position) (fuel : Nat) (ol : List CellNode)
    (cl : List Position) (grid : Grid) (hemp : ol.isEmpty = true) :
    aStarLoop s t (fuel + 1) ol cl grid = (none, grid) := by
  conv_lhs => unfold aStarLoop
  rw [if_pos hemp]

/-- Unfolding equation of the loop: the index scan yields no node. -/
theorem aStarLoop_none_eq (s t : Position) (fuel : Nat) (ol : List CellNode)
    (cl : List Position) (grid : Grid) (hemp : ¬ ol.isEmpty = true)
    (hcur : ol[findMinIndex ol]? = none) :
    aStarLoop s t (fuel + 1) ol cl grid = (none, grid) := by
  conv_lhs => unfold aStarLoop
  rw [if_neg hemp]
  split
  · rfl
  · rename_i c heq
    rw [hcur] at heq
    exact Option.noConfusion heq

/-- Unfolding equation of the loop: a node is popped. -/
theorem aStarLoop_step_eq (s t : Position) (fuel : Nat) (ol : List CellNode)
    (cl : List Position) (grid : Grid) (cur : CellNode)
    (hemp : ¬ ol.isEmpty = true) (hcur : ol[findMinIndex ol]? = some cur) :
    aStarLoop s t (fuel + 1) ol cl grid =
      if cur.position.x = t.x ∧ cur.position.y = t.y then
        (some (reconstructPath cur), grid)
      else
        aStarLoop s t fuel
          (processNeighbors cur t (cl ++ [cur.position])
            ((markVisited grid s t cur.position).getNeighbors cur.position)
            (ol.eraseIdx (findMinIndex ol)))
          (cl ++ [cur.position]) (markVisited grid s t cur.position) := by
  conv_lhs => unfold aStarLoop
  rw [if_neg hemp]
  split
  · rename_i heq
    rw [hcur] at heq
    exact Option.noConfusion heq
  · rename_i c heq
    rw [hcur] at heq
    injection heq with h
    subst h
    rfl

/-- The visualization side effects of the whole loop never touch a cell
currently tagged `Player` or `Target`. -/
theorem aStarLoop_frame (s t : Position) :
    ∀ (fuel : Nat) (ol : List CellNode) (cl : List Position) (grid : Grid) (p : Position),
      grid.cell p = CellType.player ∨ grid.cell p = CellType.target →
      ((aStarLoop s t fuel ol cl grid).2).cell p = grid.cell p := by
  intro fuel
  induction fuel with
  | zero =>
    intro ol cl grid p _
    rfl
  | succ fuel ih =>
    intro ol cl grid p hp
    by_cases hemp : ol.isEmpty = true
    · rw [aStarLoop_isEmpty_eq s t fuel ol cl grid hemp]
    · cases hcur : ol[findMinIndex ol]? with
      | none => rw [aStarLoop_none_eq s t fuel ol cl grid hemp hcur]
      | some cur =>
        rw [aStarLoop_step_eq s t fuel ol cl grid cur hemp hcur]
        by_cases hend : cur.position.x = t.x ∧ cur.position.y = t.y
        · rw [if_pos hend]
        · rw [if_neg hend]
          have hpres : (markVisited grid s t cur.position).cell p = grid.cell p := by
            rcases markVisited_cases grid s t cur.position p with h | ⟨hq, _, _, hnp, hnt3, _⟩
            · exact h
            · exfalso
              rw [hq] at hp
              rcases hp with h0 | h0
              · exact hnp h0
              · exact hnt3 h0
          rw [ih _ _ _ p (by rw [hpres]; exact hp)]
          exact hpres

/-- If the loop returns a path, the path is the parent chain of a settled
goal node: it is a walk from start to goal of minimal length, starts with
the start, ends with the goal, and moves one axis-aligned unit per step. -/
theorem aStarLoop_some_spec {g0 : Grid} (s t : Position) :
    ∀ (fuel : Nat) (ol : List CellNode) (cl : List Position) (grid : Grid),
      AInv g0 s t ol cl grid →
      ∀ p, (aStarLoop s t fuel ol cl grid).1 = some p →
      ∃ d, WalkN g0 s t d ∧ (∀ m, WalkN g0 s t m → d ≤ m) ∧ p.length = d + 1 ∧
        p.head? = some s ∧ p.getLast? = some t ∧ List.Chain' Adj p := by
  intro fuel
  induction fuel with
  | zero =>
    intro ol cl grid _ p hp
    exact Option.noConfusion hp
  | succ fuel ih =>
    intro ol cl grid hI p hp
    by_cases hemp : ol.isEmpty = true
    · rw [aStarLoop_isEmpty_eq s t fuel ol cl grid hemp] at hp
      exact Option.noConfusion hp
    · cases hcur : ol[findMinIndex ol]? with
      | none =>
        rw [aStarLoop_none_eq s t fuel ol cl grid hemp hcur] at hp
        exact Option.noConfusion hp
      | some cur =>
        rw [aStarLoop_step_eq s t fuel ol cl grid cur hemp hcur] at hp
        have hmemcur : cur ∈ ol := by
          obtain ⟨hi, hv⟩ := List.getElem?_eq_some_iff.mp hcur
          exact hv ▸ List.getElem_mem hi
        by_cases hend : cur.position.x = t.x ∧ cur.position.y = t.y
        · rw [if_pos hend] at hp
          have hpt : cur.position = t := position_coords_eq.mp hend
          have hGood : GoodNode g0 s cur := hI.goodOpen cur hmemcur
          obtain ⟨hlen, hhead, hlast, hchain⟩ := reconstructPath_spec g0 s cur hGood
          have hpe : p = reconstructPath cur := by
            simpa using hp.symm
          subst hpe
          refine ⟨cur.g, ?_, ?_, hlen, hhead, by rw [hlast, hpt], hchain⟩
          · have := goodNode_walkN g0 s cur hGood
            rw [hpt] at this
            exact this
          · intro m hm
            rw [← hpt] at hm
            exact pop_optimal hI hcur hm
        · rw [if_neg hend] at hp
          exact ih _ _ _
            (aStarStep hI hcur fun he => hend (position_coords_eq.mpr he)) p hp

/-- With enough fuel (the source loop is unbounded; each iteration closes
a fresh position, so `worldWidth * worldHeight + 2` iterations always
suffice), the loop returns a path whenever the goal is reachable from the
start in the walkable graph. -/
theorem aStarLoop_progress {g0 : Grid} (s t : Position) {m0 : Nat} (hw0 : WalkN g0 s t m0) :
    ∀ (fuel : Nat) (ol : List CellNode) (cl : List Position) (grid : Grid),
      AInv g0 s t ol cl grid →
      g0.worldWidth * g0.worldHeight + 2 ≤ fuel + cl.length →
      ∃ p, (aStarLoop s t fuel ol cl grid).1 = some p := by
  intro fuel
  induction fuel with
  | zero =>
    intro ol cl grid hI hfuel
    exfalso
    have := closed_length_le hI
    omega
  | succ fuel ih =>
    intro ol cl grid hI hfuel
    by_cases hemp : ol.isEmpty = true
    · exfalso
      obtain ⟨n, hn, _⟩ :=
        frontier_chase hI.sPresent hI.fChar hI.closedFrontier hw0 hI.tNotClosed
      rw [List.isEmpty_iff] at hemp
      rw [hemp] at hn
      simp at hn
    · have hne : ol ≠ [] := fun h => hemp (by rw [h]; rfl)
      obtain ⟨cur, hcur, _⟩ := findMinIndex_get ol hne
      rw [aStarLoop_step_eq s t fuel ol cl grid cur hemp hcur]
      by_cases hend : cur.position.x = t.x ∧ cur.position.y = t.y
      · rw [if_pos hend]
        exact ⟨reconstructPath cur, rfl⟩
      · rw [if_neg hend]
        refine ih _ _ _
          (aStarStep hI hcur fun he => hend (position_coords_eq.mpr he)) ?_
        rw [List.length_append, List.length_singleton]
        omega

/-- Whatever the fuel, a goal sitting on a `Wall` cell distinct from the
start is never expanded (open nodes are the start or walkable cells), so
the loop ends with the no-path result. -/
theorem aStarLoop_wall_none {g0 : Grid} (s t : Position)
    (hwall : g0.cell t = CellType.wall) (hts : t ≠ s) :
    ∀ (fuel : Nat) (ol : List CellNode) (cl : List Position) (grid : Grid),
      AInv g0 s t ol cl grid → (aStarLoop s t fuel ol cl grid).1 = none := by
  intro fuel
  induction fuel with
  | zero =>
    intro ol cl grid _
    rfl
  | succ fuel ih =>
    intro ol cl grid hI
    by_cases hemp : ol.isEmpty = true
    · rw [aStarLoop_isEmpty_eq s t fuel ol cl grid hemp]
    · cases hcur : ol[findMinIndex ol]? with
      | none => rw [aStarLoop_none_eq s t fuel ol cl grid hemp hcur]
      | some cur =>
        rw [aStarLoop_step_eq s t fuel ol cl grid cur hemp hcur]
        have hmemcur : cur ∈ ol := by
          obtain ⟨hi, hv⟩ := List.getElem?_eq_some_iff.mp hcur
          exact hv ▸ List.getElem_mem hi
        have hnt : cur.position ≠ t := by
          intro he
          rcases hI.posOpen cur hmemcur with hs | ⟨_, hnw⟩
          · exact hts (by rw [← he, hs])
          · exact hnw (by rw [he]; exact hwall)
        rw [if_neg fun hc => hnt (position_coords_eq.mp hc)]
        exact ih _ _ _ (aStarStep hI hcur hnt)

/-- C2: for every grid and every start/goal pair connected in the
4-connected walkable graph, `findPath` (with fuel covering the source's
unbounded while loop) returns a non-null path whose node count is one
more than the length of a true shortest 4-connected walk from start to
goal (uniform step cost 1, Manhattan heuristic). -/
theorem aStar_optimal (g : Grid) (s t : Position) (fuel : Nat)
    (hconn : ∃ m, WalkN g s t m)
    (hfuel : g.worldWidth * g.worldHeight + 2 ≤ fuel) :
    ∃ p, (findPath g s t fuel).1 = some p ∧
      ∃ d, WalkN g s t d ∧ (∀ m, WalkN g s t m → d ≤ m) ∧ p.length = d + 1 := by
  obtain ⟨m0, hw0⟩ := hconn
  obtain ⟨p, hp⟩ := aStarLoop_progress s t hw0 fuel
    [CellNode.mk s 0 0 (heuristic s t) none] [] g (aInv_init g s t)
    (by simpa using hfuel)
  obtain ⟨d, hd, hopt, hlen, _, _, _⟩ := aStarLoop_some_spec s t fuel
    [CellNode.mk s 0 0 (heuristic s t) none] [] g (aInv_init g s t) p hp
  exact ⟨p, hp, d, hd, hopt, hlen⟩

/-- Witness for C2: on an all-empty 2×1 world, the path from (0,0) to
(1,0) exists and has the optimal length. -/
theorem aStar_optimal_witness :
    ∃ p, (findPath grid2x1 ⟨0, 0⟩ ⟨1, 0⟩ 4).1 = some p ∧
      ∃ d, WalkN grid2x1 ⟨0, 0⟩ ⟨1, 0⟩ d ∧
        (∀ m, WalkN grid2x1 ⟨0, 0⟩ ⟨1, 0⟩ m → d ≤ m) ∧ p.length = d + 1 :=
  aStar_optimal grid2x1 ⟨0, 0⟩ ⟨1, 0⟩ 4
    ⟨1, WalkN.tail (WalkN.refl ⟨0, 0⟩) ⟨by unfold Adj; decide, by decide, by decide⟩⟩
    (by decide)

/-- C3: whenever `findPath` returns a non-null result, the returned
sequence starts with the start, ends with the goal, every consecutive
pair of positions differs by exactly one axis-aligned unit step, and the
sequence is longer than the Manhattan distance between start and goal. -/
theorem findPath_shape (g : Grid) (s t : Position) (fuel : Nat) (p : List Position)
    (h : (findPath g s t fuel).1 = some p) :
    p.head? = some s ∧ p.getLast? = some t ∧ List.Chain' Adj p ∧
      heuristic s t + 1 ≤ p.length := by
  obtain ⟨d, hd, _, hlen, hhead, hlast, hchain⟩ := aStarLoop_some_spec s t fuel
    [CellNode.mk s 0 0 (heuristic s t) none] [] g (aInv_init g s t) p h
  have := heuristic_le_walkN hd
  exact ⟨hhead, hlast, hchain, by omega⟩

/-- Witness for C3 on the concrete run of the 2×1 world. -/
theorem findPath_shape_witness :
    ([(⟨0, 0⟩ : Position), ⟨1, 0⟩].head? = some ⟨0, 0⟩) ∧
      ([(⟨0, 0⟩ : Position), ⟨1, 0⟩].getLast? = some ⟨1, 0⟩) ∧
      List.Chain' Adj [(⟨0, 0⟩ : Position), ⟨1, 0⟩] ∧
      heuristic ⟨0, 0⟩ ⟨1, 0⟩ + 1 ≤ [(⟨0, 0⟩ : Position), ⟨1, 0⟩].length :=
  findPath_shape grid2x1 ⟨0, 0⟩ ⟨1, 0⟩ 4 [⟨0, 0⟩, ⟨1, 0⟩] (by decide)

/-- C8: when the goal cell is a `Wall` distinct from the start,
`findPath` terminates and returns the explicit no-path result (for every
fuel, in particular without exhausting it), never failing. -/
theorem findPath_wall_goal (g : Grid) (s t : Position) (fuel : Nat)
    (hwall : g.cell t = CellType.wall) (hts : t ≠ s) :
    (findPath g s t fuel).1 = none :=
  aStarLoop_wall_none s t hwall hts fuel
    [CellNode.mk s 0 0 (heuristic s t) none] [] g (aInv_init g s t)

/-- Witness for C8: a 2×1 world whose right cell is a wall. -/
theorem findPath_wall_goal_witness :
    (findPath grid2x1Wall ⟨0, 0⟩ ⟨1, 0⟩ 4).1 = none :=
  findPath_wall_goal grid2x1Wall ⟨0, 0⟩ ⟨1, 0⟩ 4 (by decide) (by decide)

/-- C10: the search's `Visited` annotation never overwrites a cell whose
state is `Player` or `Target`: every such cell of the input grid has the
same state in the grid returned by `findPath`, so the player's and the
goal's tags survive a complete search. -/
theorem findPath_preserves_player_target (g : Grid) (s t : Position) (fuel : Nat)
    (p : Position) (hp : g.cell p = CellType.player ∨ g.cell p = CellType.target) :
    ((findPath g s t fuel).2).cell p = g.cell p :=
  aStarLoop_frame s t fuel
    [CellNode.mk s 0 0 (heuristic s t) none] [] g p hp

/-- Witness for C10: a complete search across a 3×1 world leaves the
middle `Player` cell untouched. -/
theorem findPath_preserves_player_target_witness :
    ((findPath grid3x1Player ⟨0, 0⟩ ⟨2, 0⟩ 5).2).cell ⟨1, 0⟩ =
      grid3x1Player.cell ⟨1, 0⟩ :=
  findPath_preserves_player_target grid3x1Player ⟨0, 0⟩ ⟨2, 0⟩ 5 ⟨1, 0⟩
    (Or.inl (by decide))

end Pathfinder
